import Mathlib

/-!
Shallow embedding of the ESAGE graph-construction workflow engine
(`src/core/workflow_state.py`, `src/core/orchestrator.py`,
`src/core/posterior_verifier.py`, `src/core/graph_refiner.py`,
`src/agents/node_extractor_agent.py`, `src/config/settings.py`)
together with theorems settling the specification claims.

Modelling conventions:
* Python `dict`s are insertion-ordered association lists (`Dict`);
  operations mirror CPython semantics (assignment keeps the position of an
  existing key, deletion removes it, iteration follows insertion order).
* Python `float` arithmetic is idealised as exact rational arithmetic (`ℚ`).
* `uuid4` task ids and `datetime.now()` timestamps are replaced by a strictly
  increasing logical clock; only their distinctness/ordering is ever used.
* Logging (`log_event`, `logger.*`, `print`) is pure observation and is not
  modelled.
-/

namespace ESAGE

/-- Insertion-ordered association list from string keys, modelling a Python
`dict` with `str` keys. -/
abbrev Dict (α : Type) := List (String × α)

namespace Dict

/-- `d.get(k)` / `d[k]` lookup: first entry with key `k`. -/
def find? {α : Type} : Dict α → String → Option α
  | [], _ => none
  | (k', v) :: rest, k => if k' = k then some v else find? rest k

/-- `d.get(k, default)`. -/
def getD {α : Type} (d : Dict α) (k : String) (default : α) : α :=
  (d.find? k).getD default

/-- `k in d`. -/
def hasKey {α : Type} (d : Dict α) (k : String) : Bool :=
  (d.find? k).isSome

/-- `d[k] = v`: replace the value in place when the key exists, otherwise
append the new entry at the end (CPython insertion order). -/
def setItem {α : Type} : Dict α → String → α → Dict α
  | [], k, v => [(k, v)]
  | (k', v') :: rest, k, v =>
    if k' = k then (k, v) :: rest else (k', v') :: setItem rest k v

/-- `del d[k]` (no-op when the key is absent, matching the guarded deletes in
the source, which always test membership first). -/
def delItem {α : Type} : Dict α → String → Dict α
  | [], _ => []
  | (k', v') :: rest, k =>
    if k' = k then rest else (k', v') :: delItem rest k

/-- `d.update(e)`: entries of `e`, in order, written into `d`. -/
def update {α : Type} (d e : Dict α) : Dict α :=
  e.foldl (fun acc p => acc.setItem p.1 p.2) d

/-- The key list, in insertion order. -/
def keys {α : Type} (d : Dict α) : List String := d.map Prod.fst

end Dict

/-- The three category keys, in the iteration order the source uses
(`['upstream', 'midstream', 'downstream']`). -/
def categoryKeys : List String := ["upstream", "midstream", "downstream"]

/-- Python `str.strip()` (whitespace from both ends). -/
def pyStrip (s : String) : String :=
  String.mk (((s.data.dropWhile Char.isWhitespace).reverse.dropWhile Char.isWhitespace).reverse)

/-- A `ClaimBundle` dict as produced by extraction. Fields are `Option`s so
that an absent key is distinguished from a key holding an empty value
(`dict.get` returns `None` for an absent key). `other_keys` records any
further keys a concrete bundle dict carries (e.g. `_raw_llm_output`), which
only matter for Python truthiness of the whole dict. -/
structure Bundle where
  entity_name : Option String := none
  description : Option String := none
  input_elements : Option (List String) := none
  output_products : Option (List String) := none
  key_technologies : Option (List String) := none
  representative_companies : Option (List String) := none
  evidence_refs : Option (Dict String) := none
  other_keys : List String := []
deriving DecidableEq

/-- A value stored in `node_details`: Python `None`, some non-dict value
(with its truthiness), or a bundle dict. -/
inductive NodeVal where
  | vNull : NodeVal
  | vOther (truthy : Bool) : NodeVal
  | vDict (b : Bundle) : NodeVal
deriving DecidableEq

/-- Truthiness of a bundle dict: a dict is falsy iff it is empty. -/
def Bundle.isEmptyDict (b : Bundle) : Bool :=
  b.entity_name.isNone && b.description.isNone && b.input_elements.isNone &&
  b.output_products.isNone && b.key_technologies.isNone &&
  b.representative_companies.isNone && b.evidence_refs.isNone &&
  b.other_keys.isEmpty

/-- Python truthiness of a `node_details` value (`if not details`). -/
def NodeVal.falsy : NodeVal → Bool
  | .vNull => true
  | .vOther t => !t
  | .vDict b => b.isEmptyDict

/-- `isinstance(details, dict)`. -/
def NodeVal.isDict : NodeVal → Bool
  | .vDict _ => true
  | _ => false

/-- Truthiness of `details.get(field)` for one of the four list fields:
falsy when the key is absent or holds an empty list. -/
def optListFalsy : Option (List String) → Bool
  | none => true
  | some l => l.isEmpty

/-- Task payload dict. The engine only reads the keys below; absent keys are
`none` (`payload.get(key, default)` supplies the default at use sites). -/
structure TaskPayload where
  node_name : Option String := none
  category : Option String := none
  depth : Option Nat := none
  max_depth : Option Nat := none
deriving DecidableEq

/-- A pending/in-progress task (`WorkflowState.add_task` record). -/
structure Task where
  id : String
  type_ : String
  priority : Int
  payload : TaskPayload
  status : String
  added_at : Nat
deriving DecidableEq

/-- An entry of the completion log (`completed_tasks`); the `completed_at`
wall-clock timestamp is omitted (it is never read). -/
structure CompletedTask where
  id : String
  status : String
  message : String
deriving DecidableEq

/-- The `industry_graph` dict. -/
structure IndustryGraph where
  root_topic : String
  structure_ : Dict (List String)
  node_details : Dict NodeVal
deriving DecidableEq

/-- Ordering key used by `pending_tasks.sort(key=lambda t: (t['priority'],
t['added_at']))`. `added_at` values are pairwise distinct (strictly
increasing clock), so the sort result is independent of stability. -/
def taskLE (a b : Task) : Bool :=
  a.priority < b.priority || (a.priority = b.priority && a.added_at ≤ b.added_at)

def TASK_TYPE_PLAN_STRUCTURE : String := "plan_structure"
def TASK_TYPE_EXTRACT_NODE : String := "extract_node"

/-- `WorkflowState` (src/core/workflow_state.py). `clock` models the strictly
increasing wall clock that feeds `added_at` and fresh task ids. -/
structure WorkflowState where
  user_topic : String
  industry_graph : IndustryGraph
  pending_tasks : List Task
  completed_tasks : List CompletedTask
  global_flags : Dict Bool
  error_count : Nat
  current_processing_task_id : Option String
  clock : Nat
deriving DecidableEq

namespace WorkflowState

/-- `WorkflowState.__init__`. -/
def initial (user_topic : String) : WorkflowState where
  user_topic := user_topic
  industry_graph :=
    { root_topic := user_topic
      structure_ := [("upstream", []), ("midstream", []), ("downstream", [])]
      node_details := [] }
  pending_tasks := []
  completed_tasks := []
  global_flags := [("structure_planned", false), ("extraction_complete", false)]
  error_count := 0
  current_processing_task_id := none
  clock := 0

/-- `set_flag`. -/
def set_flag (st : WorkflowState) (flag_name : String) (value : Bool) : WorkflowState :=
  { st with global_flags := st.global_flags.setItem flag_name value }

/-- `get_flag`. -/
def get_flag (st : WorkflowState) (flag_name : String) (default : Bool) : Bool :=
  st.global_flags.getD flag_name default

/-- `increment_error_count`. -/
def increment_error_count (st : WorkflowState) : WorkflowState :=
  { st with error_count := st.error_count + 1 }

/-- `add_task`: build the task record, append it, re-sort the pending queue
by `(priority, added_at)`, return the fresh id. -/
def add_task (st : WorkflowState) (task_type : String) (payload : TaskPayload)
    (priority : Int) : WorkflowState × String :=
  let task_id := "task-" ++ toString st.clock
  let task : Task :=
    { id := task_id, type_ := task_type, priority := priority,
      payload := payload, status := "pending", added_at := st.clock }
  let pending := (st.pending_tasks ++ [task]).mergeSort taskLE
  ({ st with pending_tasks := pending, clock := st.clock + 1 }, task_id)

/-- `get_next_task`: `None` on an empty queue (no mutation), otherwise pop
the head, mark it in-progress and remember its id. -/
def get_next_task (st : WorkflowState) : Option Task × WorkflowState :=
  match st.pending_tasks with
  | [] => (none, st)
  | task :: rest =>
    let task := { task with status := "in_progress" }
    (some task,
     { st with pending_tasks := rest, current_processing_task_id := some task.id })

/-- `complete_task`: clear the current-task marker when it matches, append a
completion-log entry, and bump the global error counter on failure. -/
def complete_task (st : WorkflowState) (task_id : String)
    (result_summary : Option String) (status : String) : WorkflowState :=
  let st :=
    if st.current_processing_task_id = some task_id then
      { st with current_processing_task_id := none }
    else st
  let entry : CompletedTask :=
    { id := task_id, status := status, message := result_summary.getD "N/A" }
  let st := { st with completed_tasks := st.completed_tasks ++ [entry] }
  if status = "failed" then st.increment_error_count else st

/-- `initialize_industry_graph`: overwrite `structure` with the planner's
dict as-is, then give every node listed under the three category keys a
`None` details entry, and raise the `structure_planned` flag. -/
def initialize_industry_graph (st : WorkflowState)
    (structure_data : Dict (List String)) : WorkflowState :=
  let g := { st.industry_graph with structure_ := structure_data }
  let g := categoryKeys.foldl (fun g category =>
      (structure_data.getD category []).foldl (fun g node =>
        { g with node_details := g.node_details.setItem node NodeVal.vNull }) g) g
  ({ st with industry_graph := g }).set_flag "structure_planned" true

/-- `add_node_to_structure`. For a category outside the three fixed keys the
source logs a warning claiming it will default to `'upstream'`, but in fact
only makes sure the rogue key exists and then inserts under it. Membership is
checked against every category list before anything is appended. -/
def add_node_to_structure (st : WorkflowState) (node_name category : String) :
    WorkflowState × Bool :=
  let g := st.industry_graph
  let g :=
    if category ∉ categoryKeys then
      if !g.structure_.hasKey category then
        { g with structure_ := g.structure_.setItem category [] }
      else g
    else g
  if g.structure_.any (fun p => p.2.contains node_name) then
    ({ st with industry_graph := g }, false)
  else
    let g :=
      if !g.structure_.hasKey category then
        { g with structure_ := g.structure_.setItem category [] }
      else g
    let g := { g with structure_ :=
        g.structure_.setItem category (g.structure_.getD category [] ++ [node_name]) }
    let g :=
      if !g.node_details.hasKey node_name then
        { g with node_details := g.node_details.setItem node_name NodeVal.vNull }
      else g
    ({ st with industry_graph := g }, true)

/-- `update_node_details` (the unknown-node case only logs a warning). -/
def update_node_details (st : WorkflowState) (node_name : String)
    (extracted_data : NodeVal) : WorkflowState :=
  { st with industry_graph :=
      { st.industry_graph with
        node_details := st.industry_graph.node_details.setItem node_name extracted_data } }

/-- One category step of `remove_node`:
`if node_name in structure.get(category, []): structure[category].remove(...)`,
recording in the flag whether anything was removed. -/
def removeCatStep (node_name : String) (acc : IndustryGraph × Bool)
    (category : String) : IndustryGraph × Bool :=
  let (g, removed) := acc
  match g.structure_.find? category with
  | some l =>
    if l.contains node_name then
      ({ g with structure_ := g.structure_.setItem category (l.erase node_name) }, true)
    else (g, removed)
  | none => (g, removed)

/-- `remove_node`: delete the first occurrence of the name from each of the
three category lists and drop its `node_details` entry. -/
def remove_node (st : WorkflowState) (node_name : String) : WorkflowState × Bool :=
  let acc := categoryKeys.foldl (removeCatStep node_name) (st.industry_graph, false)
  let (g, removed) := acc
  let (g, removed) :=
    if g.node_details.hasKey node_name then
      ({ g with node_details := g.node_details.delItem node_name }, true)
    else (g, removed)
  ({ st with industry_graph := g }, removed)

/-- The removal test of `prune_industry_graph` for a single details value:
`not details`, then `not isinstance(details, dict)`, then all four list
fields empty. A description never saves a node. -/
def pruneCond (details : NodeVal) : Bool :=
  if details.falsy then true
  else
    match details with
    | .vDict b =>
      optListFalsy b.input_elements && optListFalsy b.output_products &&
      optListFalsy b.key_technologies && optListFalsy b.representative_companies
    | _ => true

/-- One category step of the removal loop of `prune_industry_graph`:
`if node in structure.get(category, []): structure[category].remove(node)`
(Python `list.remove` deletes the first occurrence). -/
def pruneEraseCat (node : String) (g : IndustryGraph) (category : String) :
    IndustryGraph :=
  match g.structure_.find? category with
  | some l =>
    if l.contains node then
      { g with structure_ := g.structure_.setItem category (l.erase node) }
    else g
  | none => g

/-- The removal loop body of `prune_industry_graph` for one node: drop its
`node_details` entry, then scrub it from the three category lists. -/
def pruneRemoveNode (g : IndustryGraph) (node : String) : IndustryGraph :=
  let g :=
    if g.node_details.hasKey node then
      { g with node_details := g.node_details.delItem node }
    else g
  categoryKeys.foldl (pruneEraseCat node) g

/-- `prune_industry_graph`: collect the nodes to remove from `node_details`
(in insertion order), then delete each from `node_details` and from every
category list it occurs in. -/
def prune_industry_graph (st : WorkflowState) : WorkflowState :=
  let nodes_to_remove :=
    (st.industry_graph.node_details.filter (fun p => pruneCond p.2)).map Prod.fst
  { st with industry_graph := nodes_to_remove.foldl pruneRemoveNode st.industry_graph }

/-- `are_all_nodes_extracted`: false before planning; afterwards every node
listed in a category must have a details entry that is not `None`. -/
def are_all_nodes_extracted (st : WorkflowState) : Bool :=
  if !(st.get_flag "structure_planned" false) then false
  else categoryKeys.all (fun category =>
    (st.industry_graph.structure_.getD category []).all (fun node =>
      match st.industry_graph.node_details.find? node with
      | some NodeVal.vNull => false
      | some _ => true
      | none => false))

end WorkflowState

/-- One list-field merge step of `merge_nodes`: append each item of the drop
list that is not in the snapshot `existing` (taken from the keep bundle
before the loop; it is not refreshed while appending, so a duplicate inside
the drop list is appended twice, as in the source). `setdefault` turns an
absent keep field into a list on the first append. -/
def mergeListField (keep : Option (List String)) (dropList existing : List String) :
    Option (List String) :=
  dropList.foldl (fun acc item =>
    if existing.contains item then acc else some (acc.getD [] ++ [item])) keep

/-- The dict-with-dict branch of `merge_nodes`: merge the four list fields
and `update` the evidence maps. Description and the other scalar fields of
the keep bundle are untouched. -/
def mergeBundles (keep drop : Bundle) : Bundle :=
  let keep :=
    match drop.input_elements with
    | some l => { keep with input_elements := mergeListField keep.input_elements l (keep.input_elements.getD []) }
    | none => keep
  let keep :=
    match drop.output_products with
    | some l => { keep with output_products := mergeListField keep.output_products l (keep.output_products.getD []) }
    | none => keep
  let keep :=
    match drop.key_technologies with
    | some l => { keep with key_technologies := mergeListField keep.key_technologies l (keep.key_technologies.getD []) }
    | none => keep
  let keep :=
    match drop.representative_companies with
    | some l => { keep with representative_companies := mergeListField keep.representative_companies l (keep.representative_companies.getD []) }
    | none => keep
  match drop.evidence_refs with
  | some ev => { keep with evidence_refs := some (Dict.update (keep.evidence_refs.getD []) ev) }
  | none => keep

namespace WorkflowState

/-- `node_details.get(name)`: a missing key behaves exactly like a stored
Python `None`, which `NodeVal.vNull` models. -/
def getDetail (st : WorkflowState) (name : String) : NodeVal :=
  (st.industry_graph.node_details.find? name).getD NodeVal.vNull

/-- `merge_nodes(keep_name, drop_name)`: fail fast when `drop_name` has no
details entry; register `keep_name` (in `drop_name`'s category, defaulting to
`'upstream'`) when it has none; adopt or merge the bundles; finally remove
`drop_name` everywhere. -/
def merge_nodes (st : WorkflowState) (keep_name drop_name : String) :
    WorkflowState × Bool :=
  if !st.industry_graph.node_details.hasKey drop_name then (st, false)
  else
    let st :=
      if !st.industry_graph.node_details.hasKey keep_name then
        let found_cat :=
          (categoryKeys.find? (fun cat =>
            (st.industry_graph.structure_.getD cat []).contains drop_name)).getD "upstream"
        (st.add_node_to_structure keep_name found_cat).1
      else st
    let keep_data := st.getDetail keep_name
    let drop_data := st.getDetail drop_name
    let st :=
      if keep_data.falsy && !drop_data.falsy then
        let adopted :=
          match drop_data with
          | .vDict b => NodeVal.vDict { b with entity_name := some keep_name }
          | other => other
        st.update_node_details keep_name adopted
      else if !keep_data.falsy && !drop_data.falsy then
        match keep_data, drop_data with
        | .vDict kb, .vDict db => st.update_node_details keep_name (.vDict (mergeBundles kb db))
        | _, _ => st
      else st
    ((st.remove_node drop_name).1, true)

end WorkflowState

/-! ## Posterior verifier (src/core/posterior_verifier.py) -/

/-- Reference configuration from `src/config/settings.py` (environment
overrides absent). -/
def POSTERIOR_VERIFIER_ALPHA : ℚ := 0.6
def POSTERIOR_VERIFIER_BETA : ℚ := 0.4
def POSTERIOR_VERIFIER_THRESHOLD : ℚ := 0.6
def POSTERIOR_VERIFICATION_TOP_K : Nat := 10
def POSTERIOR_VERIFIER_EPSILON : ℚ := 1 / 1000000

/-- The local `pre_filter_threshold = 0.05` of `verify_claim`. -/
def preFilterThreshold : ℚ := 0.05

/-- A retrieved document dict; only the keys `verify_claim` reads. -/
structure Doc where
  parent_text : Option String := none
  document : Option String := none
  source_document_name : Option String := none
  parent_id : Option String := none
  id : Option String := none
deriving DecidableEq

/-- Python `a or default` on an optional string (`None` and `""` are falsy). -/
def pyOrD (a : Option String) (default : String) : String :=
  match a with
  | some s => if s = "" then default else s
  | none => default

/-- `doc.get("parent_text") or doc.get("document") or ""`. -/
def docText (doc : Doc) : String :=
  pyOrD doc.parent_text (pyOrD doc.document "")

/-- Python substring test `needle in hay` on strings. -/
def pyIn (needle hay : String) : Bool :=
  hay.data.tails.any (fun t => needle.data.isPrefixOf t)

/-- One character class of `re.sub(r'[^\w一-鿿]', '', text)`.
Python's unicode `\w` is idealised here as ASCII alphanumerics plus
underscore plus the CJK range the pattern names explicitly. -/
def isWordChar (c : Char) : Bool :=
  c.isAlphanum || c = '_' || (0x4E00 ≤ c.toNat && c.toNat ≤ 0x9FFF)

/-- `_clean_text`: drop every non-word character. -/
def cleanText (text : String) : String :=
  String.mk (text.data.filter isWordChar)

/-- `_calculate_lexical_overlap`: fraction of the cleaned claim's characters
(with multiplicity) that occur anywhere in the cleaned document, capped at
1.0; zero for a claim that cleans to nothing. -/
def lexicalOverlap (str1 str2 : String) : ℚ :=
  let s1 := cleanText str1
  let s2 := cleanText str2
  if s1 = "" then 0
  else
    let count_covered := (s1.data.filter (fun c => s2.data.contains c)).length
    min ((count_covered : ℚ) / ((s1.length : ℚ) + POSTERIOR_VERIFIER_EPSILON)) 1

/-- `_compute_css_score`. -/
def computeCss (lexical_score nli_score : ℚ) : ℚ :=
  POSTERIOR_VERIFIER_ALPHA * lexical_score + POSTERIOR_VERIFIER_BETA * nli_score

/-- Result of `_verify_and_extract_evidence_llm`: the semantic-entailment
oracle is an external collaborator; its transport/parse fallbacks live behind
this interface, and `evidence_sentence` is the already-stripped sentence
(empty when none was produced). -/
structure OracleOut where
  score : ℚ
  evidence_sentence : String
deriving DecidableEq

/-- The entailment oracle as a function of `(document_text, claim_text)`. -/
abbrev Oracle := String → String → OracleOut

/-- `target_entity and target_entity in doc_text` (an empty entity string is
falsy and never counts as present). -/
def entityPresent (target_entity : Option String) (doc_text : String) : Bool :=
  match target_entity with
  | some e => if e = "" then false else pyIn e doc_text
  | none => false

/-- The two-decimal display rounding `float(f"{x:.2f}")` applied to the
idealised rational score (exact round-half-up here). -/
def round2 (x : ℚ) : ℚ := (⌊x * 100 + 1 / 2⌋ : ℚ) / 100

/-- `score_breakdown` dict (absent keys are `none`; the main scan writes
`boosted`, the fallback path writes `fallback`, the initial placeholder
carries a `reason`). -/
structure ScoreBreakdown where
  lexical : ℚ
  nli : ℚ
  final : ℚ
  boosted : Option Bool := none
  fallback : Option Bool := none
  reason : Option String := none
deriving DecidableEq

/-- `evidence_ref` dict (the fallback path omits the chunk-id keys). -/
structure EvidenceRef where
  source_id : String
  father_chunk_id : Option String := none
  child_chunk_id : Option String := none
  father_text : String
  key_evidence : String
deriving DecidableEq

/-- Return value of `verify_claim`. The early-exit results carry neither a
breakdown nor an evidence ref. `reason` strings are kept without their
embedded numeric formatting. -/
structure VerifyResult where
  verified : Bool
  score : ℚ
  score_breakdown : Option ScoreBreakdown := none
  evidence_ref : Option EvidenceRef := none
  reason : String
deriving DecidableEq

/-- One iteration of the candidate-document scan of `verify_claim`:
`none` when the document is passed over without consulting the oracle
(blank text, or the pre-filter fires: low whole-document lexical coverage
and no verbatim focus entity); otherwise the composite score with the
entity boost, the breakdown and the evidence ref built for this document. -/
def processDoc (oracle : Oracle) (claim_text : String)
    (target_entity : Option String) (doc : Doc) :
    Option (ℚ × Bool × ScoreBreakdown × EvidenceRef) :=
  let doc_text := docText doc
  if doc_text = "" then none
  else
    let doc_lex_score := lexicalOverlap claim_text doc_text
    let has_exact_entity := entityPresent target_entity doc_text
    if !has_exact_entity && doc_lex_score < preFilterThreshold then none
    else
      let llm := oracle doc_text claim_text
      let final_lex_score :=
        if llm.evidence_sentence ≠ "" then lexicalOverlap claim_text llm.evidence_sentence
        else doc_lex_score
      let base_css := computeCss final_lex_score llm.score
      let css_score := if has_exact_entity then min (base_css + 0.25) 1 else base_css
      let breakdown : ScoreBreakdown :=
        { lexical := round2 final_lex_score, nli := round2 llm.score,
          final := round2 css_score, boosted := some has_exact_entity }
      let ev : EvidenceRef :=
        { source_id := doc.source_document_name.getD "unknown"
          father_chunk_id := some (doc.parent_id.getD "unknown")
          child_chunk_id := doc.id
          father_text := doc_text
          key_evidence := llm.evidence_sentence }
      some (css_score, has_exact_entity, breakdown, ev)

/-- The candidate loop of `verify_claim`: keep the best-scoring document,
and stop scanning once a verified score exceeds 0.95. -/
def verifyLoop (oracle : Oracle) (claim_text : String)
    (target_entity : Option String) : List Doc → VerifyResult → VerifyResult
  | [], best => best
  | doc :: rest, best =>
    match processDoc oracle claim_text target_entity doc with
    | none => verifyLoop oracle claim_text target_entity rest best
    | some (css_score, _, breakdown, ev) =>
      if css_score > best.score then
        let best' : VerifyResult :=
          { verified := css_score ≥ POSTERIOR_VERIFIER_THRESHOLD
            score := css_score
            score_breakdown := some breakdown
            evidence_ref := some ev
            reason :=
              if css_score ≥ POSTERIOR_VERIFIER_THRESHOLD then "CSS >= Threshold"
              else "Best Score < Threshold" }
        if best'.verified && decide (best'.score > 0.95) then best'
        else verifyLoop oracle claim_text target_entity rest best'
      else verifyLoop oracle claim_text target_entity rest best

/-- `PosteriorVerifier.verify_claim` with the reference settings: fail fast
on a blank claim or an empty document list, scan only the first
`POSTERIOR_VERIFICATION_TOP_K` documents, and fall back to a forced
verification of the first candidate when the pre-filter skipped them all.
The source's `processed_count` variable is write-only and not modelled. -/
def verify_claim (oracle : Oracle) (claim_text : String)
    (retrieved_docs : List Doc) (focus_entity : Option String) : VerifyResult :=
  if pyStrip claim_text = "" then
    { verified := false, score := 0, reason := "Claim is empty" }
  else if retrieved_docs.isEmpty then
    { verified := false, score := 0, reason := "No retrieved docs provided" }
  else
    let candidate_docs := retrieved_docs.take POSTERIOR_VERIFICATION_TOP_K
    let init : VerifyResult :=
      { verified := false, score := -1
        score_breakdown := some { lexical := 0, nli := 0, final := 0, reason := some "No candidate docs" }
        evidence_ref := none
        reason := "No relevant documents found in candidates." }
    let best := verifyLoop oracle claim_text focus_entity candidate_docs init
    if best.score = -1 && !candidate_docs.isEmpty then
      match candidate_docs with
      | [] => best
      | fallback_doc :: _ =>
        let fallback_text := docText fallback_doc
        if fallback_text = "" then best
        else
          let llm := oracle fallback_text claim_text
          let f_lex := lexicalOverlap claim_text
            (if llm.evidence_sentence = "" then fallback_text else llm.evidence_sentence)
          let f_css := computeCss f_lex llm.score
          { verified := f_css ≥ POSTERIOR_VERIFIER_THRESHOLD
            score := f_css
            score_breakdown := some { lexical := f_lex, nli := llm.score, final := f_css, fallback := some true }
            evidence_ref := some
              { source_id := fallback_doc.source_document_name.getD "unknown"
                father_text := fallback_text
                key_evidence := llm.evidence_sentence }
            reason := "Fallback Verify" }
    else best

/-! ## Node extractor agent (src/agents/node_extractor_agent.py) -/

/-- One candidate of `_expand_nodes`: skip blank strings and strings longer
than the 20-character entity-name cutoff; otherwise register the node and,
exactly when `add_node_to_structure` reported it as new, enqueue a
priority-1 discovery task at depth+1 with the same depth bound. -/
def expandItem (st : WorkflowState) (category : String)
    (current_depth max_depth : Nat) (item : String) : WorkflowState :=
  if pyStrip item = "" then st
  else if item.length > 20 then st
  else
    match st.add_node_to_structure item category with
    | (st', true) =>
      (st'.add_task TASK_TYPE_EXTRACT_NODE
        { node_name := some item, category := some category,
          depth := some (current_depth + 1), max_depth := some max_depth } 1).1
    | (st', false) => st'

/-- `_expand_nodes`: propose `input_elements` as upstream candidates and
`output_products` as downstream candidates, in field order then list order
(an absent field contributes nothing, like `extracted_data.get(field, [])`). -/
def expand_nodes (st : WorkflowState) (extracted_data : Bundle)
    (current_depth max_depth : Nat) : WorkflowState :=
  [(extracted_data.input_elements, "upstream"),
   (extracted_data.output_products, "downstream")].foldl
    (fun st p =>
      match p.1 with
      | some items => items.foldl (fun st item => expandItem st p.2 current_depth max_depth item) st
      | none => st)
    st

/-- Outcome of the fallible front half of `NodeExtractorAgent.execute_task`
(query building, hybrid retrieval, LLM extraction, JSON parsing and
`_match_evidence`), which calls external collaborators and never mutates the
workflow state: it either raises, finds no usable content, or yields a
bundle (`data` also covers the parse-failure placeholder bundle). -/
inductive ExtractStage where
  | raised (msg : String)
  | noContent
  | data (d : Bundle)
deriving DecidableEq

/-- `NodeExtractorAgent.execute_task`, parameterised by the front-half
outcome. Returns the mutated state and the message of the re-raised
`NodeExtractorAgentError`, if any. On success, expansion runs only below the
depth bound, then the node's details are written and the task is completed;
on an exception the agent completes the task as failed itself before
re-raising. -/
def neExecuteTask (stage : ExtractStage) (st : WorkflowState)
    (payload : TaskPayload) : WorkflowState × Option String :=
  let task_id := st.current_processing_task_id
  let current_depth := payload.depth.getD 0
  let max_depth := payload.max_depth.getD 2
  match payload.node_name with
  | none =>
    let st :=
      match task_id with
      | some tid => st.complete_task tid (some "missing node_name in payload") "failed"
      | none => st
    (st, some "missing node_name in payload")
  | some node_name =>
    match stage with
    | .raised e =>
      let st :=
        match task_id with
        | some tid => st.complete_task tid (some ("node extraction failed: " ++ e)) "failed"
        | none => st
      (st, some ("node extraction failed: " ++ e))
    | .noContent =>
      let st :=
        match task_id with
        | some tid => st.complete_task tid (some ("node " ++ node_name ++ " had no usable content")) "success"
        | none => st
      (st, none)
    | .data d =>
      let st :=
        if current_depth < max_depth then expand_nodes st d current_depth max_depth
        else st
      let st := st.update_node_details node_name (.vDict d)
      let st :=
        match task_id with
        | some tid => st.complete_task tid (some ("node " ++ node_name ++ " extraction complete")) "success"
        | none => st
      (st, none)

/-! ## Orchestrator (src/core/orchestrator.py) -/

/-- A task handler as the orchestrator sees one: it receives the workflow
state and the task payload and returns the mutated state together with the
message of an escaped exception, if one was raised. -/
abbrev AgentFn := WorkflowState → TaskPayload → WorkflowState × Option String

/-- `Orchestrator._execute_task_type`: no registered handler means an
immediate failure completion; a handler exception is caught by the failure
boundary and also turned into a failure completion. -/
def executeTaskType (agents : Dict AgentFn) (st : WorkflowState) (task : Task) :
    WorkflowState :=
  match agents.find? task.type_ with
  | none => st.complete_task task.id (some ("unknown task type " ++ task.type_)) "failed"
  | some agent =>
    match agent st task.payload with
    | (st', none) => st'
    | (st', some e) => st'.complete_task task.id (some ("agent execution failed: " ++ e)) "failed"

def STALL_PATIENCE_THRESHOLD : Nat := 5

/-- How `coordinate_workflow` left its loop. -/
inductive WorkflowExit where
  | flagObserved
  | iterationCap
  | complete
  | stalled
deriving DecidableEq

/-- `Orchestrator.coordinate_workflow`, from a given iteration count and
stall counter. Besides the final state it reports how the loop exited and
how many times `get_next_task` was polled (pure event counting; polls do not
influence the computation). -/
def coordinate_workflow (agents : Dict AgentFn) (max_workflow_iterations : Nat)
    (iteration_count stall_patience_counter : Nat) (st : WorkflowState) :
    WorkflowState × WorkflowExit × Nat :=
  if st.get_flag "extraction_complete" false then (st, .flagObserved, 0)
  else if _h : max_workflow_iterations ≤ iteration_count then (st, .iterationCap, 0)
  else
    match st.get_next_task with
    | (none, st') =>
      let stall_patience_counter := stall_patience_counter + 1
      if st'.are_all_nodes_extracted then
        (st'.set_flag "extraction_complete" true, .complete, 1)
      else if STALL_PATIENCE_THRESHOLD ≤ stall_patience_counter then
        (st', .stalled, 1)
      else
        let r := coordinate_workflow agents max_workflow_iterations
          (iteration_count + 1) stall_patience_counter st'
        (r.1, r.2.1, r.2.2 + 1)
    | (some task, st') =>
      let st'' := executeTaskType agents st' task
      let r := coordinate_workflow agents max_workflow_iterations
        (iteration_count + 1) 0 st''
      (r.1, r.2.1, r.2.2 + 1)
termination_by max_workflow_iterations - iteration_count
decreasing_by all_goals omega

/-! ## Graph refiner (src/core/graph_refiner.py) -/

/-- `GraphRefiner._merge_node_content`: each list field becomes
`list(set(t_list + s_list))`; the hash-set iteration order is modelled by
`dedup` on the concatenation (one representative per element, order
unspecified in CPython and irrelevant to every property proved here).
Descriptions are left as the target's. -/
def mergeNodeContent (target source : Bundle) : Bundle :=
  { target with
    input_elements := some ((target.input_elements.getD [] ++ source.input_elements.getD []).dedup)
    output_products := some ((target.output_products.getD [] ++ source.output_products.getD []).dedup)
    key_technologies := some ((target.key_technologies.getD [] ++ source.key_technologies.getD []).dedup)
    representative_companies := some ((target.representative_companies.getD [] ++ source.representative_companies.getD []).dedup) }

/-- A merge suggestion from the synonym collaborator. -/
structure MergeSuggestion where
  target_node : Option String := none
  source_nodes : List String := []
deriving DecidableEq

/-- The structure rebuild of `_apply_merges` for one suggestion and one
category list: drop every source, drop the target when this is not its
resolved category, and append the target once at the end of its resolved
category if it is not already there. -/
def rebuildCategoryList (target : String) (sources : List String)
    (target_category cat : String) (current_list : List String) : List String :=
  let new_list := current_list.filter (fun item =>
    !(sources.contains item) && !(item = target))
  if cat = target_category then
    if new_list.contains target then new_list else new_list ++ [target]
  else new_list

/-- The details update of `_apply_merges` for one suggestion: seed an absent
target from the first source that has details (renaming it), then fold every
source's bundle into the target and delete the source entry. Non-dict detail
values never enter this path in the refiner (its graphs come from
serialisation); they are folded as no-ops. -/
def applyMergeDetails (details : Dict NodeVal) (target : String)
    (sources : List String) : Dict NodeVal :=
  let details :=
    if (details.find? target).getD NodeVal.vNull |>.falsy then
      match sources.find? (fun s => details.hasKey s) with
      | some s =>
        match details.find? s with
        | some (.vDict b) => details.setItem target (.vDict { b with entity_name := some target })
        | _ => details
      | none => details
    else details
  sources.foldl (fun details s =>
    match details.find? s with
    | some sv =>
      let details :=
        match (details.find? target).getD NodeVal.vNull, sv with
        | .vDict tb, .vDict sb => details.setItem target (.vDict (mergeNodeContent tb sb))
        | _, _ => details
      details.delItem s
    | none => details) details

/-- Step B of `_apply_merges` for one suggestion: rebuild each of the three
category lists in order. -/
def applyMergeRebuild (target : String) (sources : List String)
    (target_category : String) (su : Dict (List String)) : Dict (List String) :=
  categoryKeys.foldl (fun su cat =>
      su.setItem cat (rebuildCategoryList target sources target_category cat (su.getD cat [])))
    su

/-- One suggestion of `_apply_merges`, on the structure lists: skipped when
it has no target or no source different from the target; otherwise the
target category is resolved (the category the target already occupies, else
the category of the first source found in one, else `'upstream'`) and the
three lists are rebuilt. -/
def applyMergesStep (structure_updates : Dict (List String))
    (suggestion : MergeSuggestion) : Dict (List String) :=
  match suggestion.target_node with
  | none => structure_updates
  | some target =>
    let sources := suggestion.source_nodes.filter (fun s => !(s = target))
    if sources.isEmpty then structure_updates
    else
      let target_category :=
        match categoryKeys.find? (fun cat =>
            (structure_updates.getD cat []).contains target) with
        | some cat => cat
        | none =>
          match sources.findSome? (fun s =>
              categoryKeys.find? (fun cat => (structure_updates.getD cat []).contains s)) with
          | some cat => cat
          | none => "upstream"
      applyMergeRebuild target sources target_category structure_updates

/-- `GraphRefiner._apply_merges` restricted to the structure lists: apply
each usable suggestion in order. -/
def applyMergesStructure (structure_updates : Dict (List String))
    (suggestions : List MergeSuggestion) : Dict (List String) :=
  suggestions.foldl applyMergesStep structure_updates

/-! ## Invariant I1 and concrete fixtures

The I1 predicate on the structure dict, and the concrete inputs used by the
concrete (counter)example theorems and witnesses below. -/

/-- The planner output of the repository's own deduplication test
(`test_workflow_state_dedup.py`): every name proposed in two categories. -/
def dedupTestInput : Dict (List String) :=
  [("upstream", ["A", "B"]), ("midstream", ["B", "C"]), ("downstream", ["C", "A"])]

/-- A fresh state initialised with `dedupTestInput`. -/
def dedupTestState : WorkflowState :=
  (WorkflowState.initial "TestTopic").initialize_industry_graph dedupTestInput

/-- The result of registering a node under a category key outside the fixed
set, on a fresh state. -/
def rogueAddResult : WorkflowState × Bool :=
  (WorkflowState.initial "TestTopic").add_node_to_structure "NodeX" "sideways"

/-- Three low-overlap documents followed by one containing the focus entity
`"ab"` verbatim, for exercising the top-K cutoff. -/
def fourTestDocs : List Doc :=
  [{ parent_text := some "xyz", source_document_name := some "doc1" },
   { parent_text := some "xyz", source_document_name := some "doc2" },
   { parent_text := some "xyz", source_document_name := some "doc3" },
   { parent_text := some "zab", source_document_name := some "doc4" }]

/-- An entailment oracle that fully supports every claim but extracts no
evidence sentence. -/
def constOracle : Oracle := fun _ _ => { score := 1, evidence_sentence := "" }

/-- A document whose text contains the focus entity `"ab"` verbatim. -/
def entityHitDoc : Doc := { parent_text := some "zab" }

/-- A handler table whose extraction handler always raises. -/
def raisingAgents : Dict AgentFn :=
  [(TASK_TYPE_EXTRACT_NODE, neExecuteTask (.raised "boom"))]

/-- An in-progress extraction task for the raising handler. -/
def raisingTask : Task :=
  { id := "t1", type_ := TASK_TYPE_EXTRACT_NODE, priority := 0,
    payload := { node_name := some "N" }, status := "in_progress", added_at := 0 }

/-- A fresh state currently processing `raisingTask`. -/
def raisingState : WorkflowState :=
  { WorkflowState.initial "t" with current_processing_task_id := some "t1" }

/-- A state with one planned but unresolved node and an empty task queue. -/
def stalledState : WorkflowState :=
  (WorkflowState.initial "t").initialize_industry_graph [("upstream", ["A"])]

/-- A bundle with a non-empty description but all four list fields empty. -/
def descOnlyBundle : Bundle :=
  { entity_name := some "NodeA", description := some "has a description",
    input_elements := some [], output_products := some [],
    key_technologies := some [], representative_companies := some [] }

/-- A bundle with one verified input element. -/
def keeperBundle : Bundle :=
  { entity_name := some "NodeB", description := some "kept",
    input_elements := some ["Something"], output_products := some [],
    key_technologies := some [], representative_companies := some [] }

/-- A planned two-node state holding `descOnlyBundle` and `keeperBundle`. -/
def pruneWitnessState : WorkflowState :=
  ((((WorkflowState.initial "t").initialize_industry_graph
      [("upstream", ["NodeA", "NodeB"]), ("midstream", []), ("downstream", [])]
    ).update_node_details "NodeA" (.vDict descOnlyBundle)
    ).update_node_details "NodeB" (.vDict keeperBundle))

/-- Invariant I1 on the structure dict: the three category lists are
pairwise disjoint. -/
def categoriesDisjoint (s : Dict (List String)) : Prop :=
  ∀ c1 ∈ categoryKeys, ∀ c2 ∈ categoryKeys, c1 ≠ c2 →
    ∀ n ∈ s.getD c1 [], n ∉ s.getD c2 []

/-! ## Dictionary lemmas -/

namespace Dict

theorem find?_setItem_self {α : Type} (d : Dict α) (k : String) (v : α) :
    (d.setItem k v).find? k = some v := by
  induction d with
  | nil => simp [setItem, find?]
  | cons p rest ih =>
    by_cases h : p.1 = k
    · simp [setItem, find?, h]
    · simp [setItem, find?, h, ih]

theorem find?_setItem_ne {α : Type} (d : Dict α) {k k' : String} (v : α)
    (h : k' ≠ k) : (d.setItem k v).find? k' = d.find? k' := by
  have hne : ¬ (k = k') := fun hk => h hk.symm
  induction d with
  | nil => simp [setItem, find?, hne]
  | cons p rest ih =>
    by_cases hp : p.1 = k
    · subst hp
      simp [setItem, find?, hne]
    · simp [setItem, find?, hp, ih]

theorem delItem_of_not_hasKey {α : Type} (d : Dict α) (k : String)
    (h : d.hasKey k = false) : d.delItem k = d := by
  induction d with
  | nil => simp [delItem]
  | cons p rest ih =>
    simp only [hasKey, find?, Option.isSome] at h
    by_cases hp : p.1 = k
    · simp [hp] at h
    · simp only [hasKey, Option.isSome] at ih
      simp only [delItem, hp, if_false]
      rw [ih]
      · simp only [hp, if_false] at h
        split at h
        · exact absurd h (by simp)
        · simp_all

theorem find?_delItem_ne {α : Type} (d : Dict α) {k k' : String}
    (h : k' ≠ k) : (d.delItem k).find? k' = d.find? k' := by
  have hne : ¬ (k = k') := fun hk => h hk.symm
  induction d with
  | nil => simp [delItem]
  | cons p rest ih =>
    by_cases hp : p.1 = k
    · subst hp
      simp [delItem, find?, hne]
    · simp [delItem, find?, hp, ih]

theorem mem_of_find?_eq_some {α : Type} {d : Dict α} {k : String} {v : α}
    (h : d.find? k = some v) : (k, v) ∈ d := by
  induction d with
  | nil => simp [find?] at h
  | cons p rest ih =>
    by_cases hp : p.1 = k
    · simp only [find?, hp, if_true, Option.some.injEq] at h
      have hpv : p = (k, v) := by
        cases p
        simp_all
      rw [hpv]
      exact List.mem_cons_self _ _
    · simp only [find?, hp, if_false] at h
      exact List.mem_cons_of_mem _ (ih h)

theorem find?_delItem_self {α : Type} (d : Dict α) (k : String)
    (h : (d.keys).Nodup) : (d.delItem k).find? k = none := by
  induction d with
  | nil => simp [delItem, find?]
  | cons p rest ih =>
    simp only [keys, List.map_cons, List.nodup_cons] at h
    by_cases hp : p.1 = k
    · cases hne : find? rest k with
      | none => simp [delItem, hp, hne]
      | some v =>
        exfalso
        have hmem : k ∈ rest.map Prod.fst :=
          List.mem_map_of_mem Prod.fst (mem_of_find?_eq_some hne)
        rw [hp] at h
        exact absurd hmem h.1
    · simp only [delItem, hp, if_false]
      simp [find?, hp, ih h.2]

theorem keys_delItem_sublist {α : Type} (d : Dict α) (k : String) :
    (d.delItem k).keys.Sublist d.keys := by
  induction d with
  | nil => simp [delItem]
  | cons p rest ih =>
    by_cases hp : p.1 = k
    · simp only [delItem, hp, if_true, keys, List.map_cons]
      exact (List.sublist_cons_self _ _)
    · simp only [delItem, hp, if_false, keys, List.map_cons]
      exact ih.cons₂ p.1

theorem keys_nodup_delItem {α : Type} (d : Dict α) (k : String)
    (h : d.keys.Nodup) : (d.delItem k).keys.Nodup :=
  (keys_delItem_sublist d k).nodup h

theorem find?_eq_some_of_mem_nodup {α : Type} {d : Dict α} {k : String} {v : α}
    (hd : d.keys.Nodup) (h : (k, v) ∈ d) : d.find? k = some v := by
  induction d with
  | nil => simp at h
  | cons p rest ih =>
    simp only [keys, List.map_cons, List.nodup_cons] at hd
    rcases List.mem_cons.mp h with h1 | h1
    · rw [← h1]
      simp [find?]
    · have hk : p.1 ≠ k := by
        intro hk
        exact hd.1 (hk ▸ (List.mem_map_of_mem Prod.fst h1))
      simp [find?, hk, ih hd.2 h1]

end Dict

/-! ## Claim theorems -/

/-- C1. `initialize_industry_graph` performs no cross-category
deduplication: on the input `{upstream:[A,B], midstream:[B,C],
downstream:[C,A]}` it stores all three lists verbatim, instead of the
`midstream=[B,C]`, `downstream=[A]`, `upstream=[]` result that the
mid > down > up priority rule (asserted by the repository's own
`test_workflow_state_dedup.py`) demands. -/
theorem initialize_structure_does_not_deduplicate :
    dedupTestState.industry_graph.structure_.getD "upstream" [] = ["A", "B"] ∧
    dedupTestState.industry_graph.structure_.getD "midstream" [] = ["B", "C"] ∧
    dedupTestState.industry_graph.structure_.getD "downstream" [] = ["C", "A"] ∧
    ¬(dedupTestState.industry_graph.structure_.getD "upstream" [] = [] ∧
      dedupTestState.industry_graph.structure_.getD "midstream" [] = ["B", "C"] ∧
      dedupTestState.industry_graph.structure_.getD "downstream" [] = ["A"]) := by
  decide

/-- C2. Category disjointness is violated immediately after
`initialize_industry_graph`: starting from the fresh state (whose three
category lists are empty, hence pairwise disjoint), initialising with
overlapping planner lists leaves `A` in both `upstream` and `downstream`
(and `B` in both `upstream` and `midstream`). -/
theorem disjointness_violated_after_initialize :
    (∀ c1 ∈ categoryKeys, ∀ c2 ∈ categoryKeys, c1 ≠ c2 →
       ∀ n ∈ (WorkflowState.initial "TestTopic").industry_graph.structure_.getD c1 [],
         n ∉ (WorkflowState.initial "TestTopic").industry_graph.structure_.getD c2 []) ∧
    "A" ∈ dedupTestState.industry_graph.structure_.getD "upstream" [] ∧
    "A" ∈ dedupTestState.industry_graph.structure_.getD "downstream" [] ∧
    "B" ∈ dedupTestState.industry_graph.structure_.getD "upstream" [] ∧
    "B" ∈ dedupTestState.industry_graph.structure_.getD "midstream" [] := by
  decide

/-- C9. The category key set is not closed: calling
`add_node_to_structure` with a category outside
`{upstream, midstream, downstream}` reports the node as new and files it
under the freshly created rogue key (despite the source's own warning
message claiming it would default to `'upstream'`). -/
theorem add_node_creates_rogue_category_key :
    rogueAddResult.2 = true ∧
    rogueAddResult.1.industry_graph.structure_.find? "sideways" = some ["NodeX"] ∧
    "sideways" ∉ categoryKeys ∧
    rogueAddResult.1.industry_graph.structure_.getD "upstream" [] = [] ∧
    rogueAddResult.1.industry_graph.structure_.getD "midstream" [] = [] ∧
    rogueAddResult.1.industry_graph.structure_.getD "downstream" [] = [] := by
  decide

/-- C3 (amended). `verify_claim` depends only on the first
`POSTERIOR_VERIFICATION_TOP_K` (= 10, the configured settings default)
retrieved documents: truncating the input list to that bound never changes
the result, so later documents are never scored and never reach the
entailment oracle. -/
theorem verify_claim_considers_only_top_k (oracle : Oracle) (claim_text : String)
    (retrieved_docs : List Doc) (focus_entity : Option String) :
    verify_claim oracle claim_text retrieved_docs focus_entity =
      verify_claim oracle claim_text
        (retrieved_docs.take POSTERIOR_VERIFICATION_TOP_K) focus_entity := by
  have hemp : (retrieved_docs.take POSTERIOR_VERIFICATION_TOP_K).isEmpty = retrieved_docs.isEmpty := by
    cases retrieved_docs <;> simp [POSTERIOR_VERIFICATION_TOP_K]
  simp only [verify_claim, hemp, List.take_take, min_self]

/-- C3, counterexample to the claimed default bound of 3: a fourth document
does change the outcome of `verify_claim` (here the fourth document contains
the focus entity and flips the verdict), so documents beyond the first three
are scored. -/
theorem verify_claim_scores_a_fourth_document :
    verify_claim constOracle "abc" fourTestDocs (some "ab") ≠
      verify_claim constOracle "abc" (fourTestDocs.take 3) (some "ab") ∧
    (verify_claim constOracle "abc" fourTestDocs (some "ab")).verified = true ∧
    (verify_claim constOracle "abc" (fourTestDocs.take 3) (some "ab")).verified = false := by
  with_unfolding_all decide

/-- `add_node_to_structure` with a valid category and the name already in
some category list is a pure query: it returns `false` and the state is
untouched. -/
theorem add_node_eq_of_present (st : WorkflowState) (name category : String)
    (hcat : category ∈ categoryKeys)
    (hpresent : st.industry_graph.structure_.any (fun p => p.2.contains name) = true) :
    st.add_node_to_structure name category = (st, false) := by
  have hvalid : ¬ (category ∉ categoryKeys) := by simp [hcat]
  simp only [WorkflowState.add_node_to_structure, if_neg hvalid]
  rw [if_pos hpresent]

/-- `add_node_to_structure` with a valid category and a name in no category
list: reports the node as new, appends it to the target list, and gives it a
null details entry exactly when none existed. -/
theorem add_node_of_absent (st : WorkflowState) (name category : String)
    (hcat : category ∈ categoryKeys)
    (habsent : st.industry_graph.structure_.any (fun p => p.2.contains name) = false) :
    (st.add_node_to_structure name category).2 = true ∧
    (st.add_node_to_structure name category).1.industry_graph.structure_.getD category [] =
      st.industry_graph.structure_.getD category [] ++ [name] ∧
    (st.industry_graph.node_details.hasKey name = false →
       (st.add_node_to_structure name category).1.industry_graph.node_details.find? name =
         some NodeVal.vNull) ∧
    (st.industry_graph.node_details.hasKey name = true →
       (st.add_node_to_structure name category).1.industry_graph.node_details =
         st.industry_graph.node_details) := by
  have hvalid : ¬ (category ∉ categoryKeys) := by simp [hcat]
  have habsent' : ¬ ((st.industry_graph.structure_.any fun p => p.2.contains name) = true) := by
    rw [habsent]
    simp
  by_cases hkey : st.industry_graph.structure_.hasKey category
  · have hguard : ¬ ((!st.industry_graph.structure_.hasKey category) = true) := by
      simp [hkey]
    refine ⟨?_, ?_, ?_, ?_⟩
    · simp only [WorkflowState.add_node_to_structure, if_neg hvalid, if_neg habsent',
        if_neg hguard]
    · simp only [WorkflowState.add_node_to_structure, if_neg hvalid, if_neg habsent',
        if_neg hguard]
      split <;> simp [Dict.getD, Dict.find?_setItem_self]
    · intro hnd
      simp only [WorkflowState.add_node_to_structure, if_neg hvalid, if_neg habsent',
        if_neg hguard]
      rw [if_pos (by simp [hnd])]
      simp [Dict.find?_setItem_self]
    · intro hnd
      simp only [WorkflowState.add_node_to_structure, if_neg hvalid, if_neg habsent',
        if_neg hguard]
      rw [if_neg (by simp [hnd])]
  · have hfind : st.industry_graph.structure_.find? category = none := by
      cases h : st.industry_graph.structure_.find? category with
      | none => rfl
      | some v => rw [Dict.hasKey, h] at hkey; simp at hkey
    have hguard : (!st.industry_graph.structure_.hasKey category) = true := by
      simp [hkey]
    refine ⟨?_, ?_, ?_, ?_⟩
    · simp only [WorkflowState.add_node_to_structure, if_neg hvalid, if_neg habsent',
        if_pos hguard]
    · simp only [WorkflowState.add_node_to_structure, if_neg hvalid, if_neg habsent',
        if_pos hguard]
      split <;> simp [Dict.getD, Dict.find?_setItem_self, hfind]
    · intro hnd
      simp only [WorkflowState.add_node_to_structure, if_neg hvalid, if_neg habsent',
        if_pos hguard]
      rw [if_pos (by simp [hnd])]
      simp [Dict.find?_setItem_self]
    · intro hnd
      simp only [WorkflowState.add_node_to_structure, if_neg hvalid, if_neg habsent',
        if_pos hguard]
      rw [if_neg (by simp [hnd])]

/-- `add_node_to_structure` with a valid category leaves every other
category list unchanged. -/
theorem add_node_getD_other (st : WorkflowState) (name category cat' : String)
    (hcat : category ∈ categoryKeys) (hne : cat' ≠ category) :
    (st.add_node_to_structure name category).1.industry_graph.structure_.getD cat' [] =
      st.industry_graph.structure_.getD cat' [] := by
  have hvalid : ¬ (category ∉ categoryKeys) := by simp [hcat]
  by_cases hpresent : st.industry_graph.structure_.any (fun p => p.2.contains name) = true
  · rw [add_node_eq_of_present st name category hcat hpresent]
  · by_cases hkey : st.industry_graph.structure_.hasKey category
    · have hguard : ¬ ((!st.industry_graph.structure_.hasKey category) = true) := by
        simp [hkey]
      simp only [WorkflowState.add_node_to_structure, if_neg hvalid, if_neg hpresent,
        if_neg hguard]
      split <;> simp [Dict.getD, Dict.find?_setItem_ne _ _ hne]
    · have hguard : (!st.industry_graph.structure_.hasKey category) = true := by
        simp [hkey]
      simp only [WorkflowState.add_node_to_structure, if_neg hvalid, if_neg hpresent,
        if_pos hguard]
      split <;> simp [Dict.getD, Dict.find?_setItem_ne _ _ hne]

/-- C6. `add_node_to_structure` checks membership across every category
list: if the name already occurs anywhere it returns `false` and changes
nothing (for any category argument in the closed category set, in particular
one different from the category the name occupies); otherwise it returns
`true`, appends the name to the target category's list, and initialises
`node_details[name]` to null exactly when no entry existed. -/
theorem add_node_checks_all_categories (st : WorkflowState) (name category : String)
    (hcat : category ∈ categoryKeys) :
    (st.industry_graph.structure_.any (fun p => p.2.contains name) = true →
       st.add_node_to_structure name category = (st, false)) ∧
    (st.industry_graph.structure_.any (fun p => p.2.contains name) = false →
       (st.add_node_to_structure name category).2 = true ∧
       (st.add_node_to_structure name category).1.industry_graph.structure_.getD category [] =
         st.industry_graph.structure_.getD category [] ++ [name] ∧
       (st.industry_graph.node_details.hasKey name = false →
          (st.add_node_to_structure name category).1.industry_graph.node_details.find? name =
            some NodeVal.vNull) ∧
       (st.industry_graph.node_details.hasKey name = true →
          (st.add_node_to_structure name category).1.industry_graph.node_details =
            st.industry_graph.node_details)) :=
  ⟨add_node_eq_of_present st name category hcat,
   add_node_of_absent st name category hcat⟩

/-- C6, witness: on a fresh state (where the name is nowhere), adding under
`midstream` reports the node as new. -/
theorem add_node_checks_all_categories_witness :
    "midstream" ∈ categoryKeys ∧
    ((WorkflowState.initial "t").industry_graph.structure_.any
      (fun p => p.2.contains "N") = false) ∧
    ((WorkflowState.initial "t").add_node_to_structure "N" "midstream").2 = true := by
  refine ⟨by decide, by decide, ?_⟩
  have h := add_node_checks_all_categories (WorkflowState.initial "t") "N" "midstream" (by decide)
  exact (h.2 (by decide)).1

/-- A blank document covers nothing of any claim. -/
theorem lexicalOverlap_doc_empty (s : String) : lexicalOverlap s "" = 0 := by
  have h2 : cleanText "" = "" := rfl
  unfold lexicalOverlap
  rw [h2]
  by_cases h : cleanText s = ""
  · simp [h]
  · rw [if_neg h]
    have hf : ((cleanText s).data.filter (fun c => ("" : String).data.contains c)) = [] := by
      apply List.filter_eq_nil_iff.mpr
      intro a _
      simp [List.contains]
    rw [hf]
    simp

/-- A non-empty string is not a substring of the empty string. -/
theorem pyIn_doc_empty (e : String) (h : e ≠ "") : pyIn e "" = false := by
  cases hd : e.data with
  | nil =>
    exfalso
    apply h
    cases e
    simp only at hd
    rw [hd]
  | cons a l =>
    unfold pyIn
    rw [show ("" : String).data = [] from rfl, hd]
    rfl

/-- C5. Inside the candidate scan of `verify_claim`, a document is passed
over without consulting the entailment oracle exactly when its
whole-document lexical coverage is below the 0.05 pre-filter threshold and
the supplied focus entity does not occur verbatim in its text; and whenever
the focus entity does occur verbatim, the document is processed, its
composite score is the CSS plus a fixed 0.25 bonus capped at 1.0, and the
boost is recorded in the breakdown. -/
theorem prefilter_skip_iff_and_entity_boost (claim_text : String)
    (target_entity : Option String) (doc : Doc) (hE : target_entity ≠ some "") :
    ((∀ oracle : Oracle, processDoc oracle claim_text target_entity doc = none) ↔
       (lexicalOverlap claim_text (docText doc) < preFilterThreshold ∧
        (∀ e, target_entity = some e → pyIn e (docText doc) = false))) ∧
    (∀ (oracle : Oracle) (e : String), target_entity = some e →
       pyIn e (docText doc) = true →
       ∃ r : ℚ × Bool × ScoreBreakdown × EvidenceRef,
         processDoc oracle claim_text target_entity doc = some r ∧
         r.1 = min (computeCss
             (if (oracle (docText doc) claim_text).evidence_sentence ≠ "" then
                lexicalOverlap claim_text (oracle (docText doc) claim_text).evidence_sentence
              else lexicalOverlap claim_text (docText doc))
             (oracle (docText doc) claim_text).score + 0.25) 1 ∧
         r.1 ≤ 1 ∧
         r.2.2.1.boosted = some true) := by
  have hent : ∀ e, target_entity = some e → e ≠ "" := by
    intro e he h0
    exact hE (by rw [he, h0])
  have hentPresent : entityPresent target_entity (docText doc) = false ↔
      (∀ e, target_entity = some e → pyIn e (docText doc) = false) := by
    cases target_entity with
    | none => simp [entityPresent]
    | some e => simp [entityPresent, hent e rfl]
  by_cases hdoc : docText doc = ""
  · constructor
    · constructor
      · intro _
        refine ⟨?_, ?_⟩
        · rw [hdoc, lexicalOverlap_doc_empty]
          norm_num [preFilterThreshold]
        · intro e he
          rw [hdoc]
          exact pyIn_doc_empty e (hent e he)
      · intro _ oracle
        simp [processDoc, hdoc]
    · intro oracle e he hpy
      rw [hdoc] at hpy
      rw [pyIn_doc_empty e (hent e he)] at hpy
      exact absurd hpy (by simp)
  · constructor
    · constructor
      · intro hall
        have h := hall (fun _ _ => { score := 0, evidence_sentence := "" })
        simp only [processDoc, if_neg hdoc] at h
        by_cases hcond : (!entityPresent target_entity (docText doc) &&
            decide (lexicalOverlap claim_text (docText doc) < preFilterThreshold)) = true
        · rcases Bool.and_eq_true_iff.mp hcond with ⟨h1, h2⟩
          refine ⟨of_decide_eq_true h2, hentPresent.mp ?_⟩
          cases hentv : entityPresent target_entity (docText doc)
          · rfl
          · rw [hentv] at h1
            simp at h1
        · rw [if_neg hcond] at h
          simp at h
      · intro ⟨hlex, hnoent⟩ oracle
        have hcond : (!entityPresent target_entity (docText doc) &&
            decide (lexicalOverlap claim_text (docText doc) < preFilterThreshold)) = true := by
          rw [hentPresent.mpr hnoent]
          simp [hlex]
        simp only [processDoc, if_neg hdoc]
        rw [if_pos hcond]
    · intro oracle e he hpy
      have hhas : entityPresent target_entity (docText doc) = true := by
        rw [he]
        simp [entityPresent, hent e he, hpy]
      have hcond : ¬ ((!entityPresent target_entity (docText doc) &&
          decide (lexicalOverlap claim_text (docText doc) < preFilterThreshold)) = true) := by
        rw [hhas]
        simp
      simp only [processDoc, if_neg hdoc]
      rw [if_neg hcond]
      refine ⟨_, rfl, ?_, ?_, ?_⟩
      · simp only [hhas, if_true]
      · simp only [hhas, if_true]
        exact min_le_right _ _
      · simp only [hhas]

/-- C5, witness: a document whose text contains the focus entity verbatim is
processed and the boost is recorded in its breakdown. -/
theorem prefilter_skip_iff_and_entity_boost_witness :
    (some "ab" : Option String) ≠ some "" ∧
    pyIn "ab" (docText entityHitDoc) = true ∧
    processDoc constOracle "abc" (some "ab") entityHitDoc ≠ none ∧
    (processDoc constOracle "abc" (some "ab") entityHitDoc).map
      (fun r => r.2.2.1.boosted) = some (some true) := by
  refine ⟨by decide, by decide, ?_, ?_⟩
  · obtain ⟨r, hr, -, -, -⟩ :=
      (prefilter_skip_iff_and_entity_boost "abc" (some "ab") entityHitDoc
        (by decide)).2 constOracle "ab" rfl (by decide)
    rw [hr]
    simp
  · obtain ⟨r, hr, -, -, hb⟩ :=
      (prefilter_skip_iff_and_entity_boost "abc" (some "ab") entityHitDoc
        (by decide)).2 constOracle "ab" rfl (by decide)
    rw [hr]
    simp [hb]

/-- `add_node_to_structure` never touches the task queue. -/
theorem add_node_pending_tasks (st : WorkflowState) (name category : String) :
    (st.add_node_to_structure name category).1.pending_tasks = st.pending_tasks := by
  unfold WorkflowState.add_node_to_structure
  dsimp only
  split_ifs <;> rfl

/-- C8. The expansion policy: (a) when the task's depth has reached
`max_depth`, a successfully extracted node is still written to
`node_details` and completed, but the structure and the task queue are left
untouched (no children are spawned); (b) a candidate longer than 20
characters is always rejected; and (c) a surviving candidate triggers a new
`extract_node` task carrying `depth+1` and the same `max_depth` exactly when
`add_node_to_structure` returns `true` for it. -/
theorem expansion_policy (st : WorkflowState) (payload : TaskPayload) (d : Bundle) :
    (∀ node_name, payload.node_name = some node_name →
       ¬ (payload.depth.getD 0 < payload.max_depth.getD 2) →
       (neExecuteTask (.data d) st payload).1.industry_graph.structure_ =
         st.industry_graph.structure_ ∧
       (neExecuteTask (.data d) st payload).1.pending_tasks = st.pending_tasks ∧
       (neExecuteTask (.data d) st payload).1.industry_graph.node_details.find? node_name =
         some (NodeVal.vDict d) ∧
       (neExecuteTask (.data d) st payload).2 = none) ∧
    (∀ (category : String) (cd md : Nat) (item : String), item.length > 20 →
       expandItem st category cd md item = st) ∧
    (∀ (category : String) (cd md : Nat) (item : String),
       pyStrip item ≠ "" → ¬ (item.length > 20) →
       ((st.add_node_to_structure item category).2 = true →
          expandItem st category cd md item =
            ((st.add_node_to_structure item category).1.add_task TASK_TYPE_EXTRACT_NODE
              { node_name := some item, category := some category,
                depth := some (cd + 1), max_depth := some md } 1).1 ∧
          ∃ t ∈ (expandItem st category cd md item).pending_tasks,
            t.type_ = TASK_TYPE_EXTRACT_NODE ∧
            t.payload = { node_name := some item, category := some category,
                          depth := some (cd + 1), max_depth := some md }) ∧
       ((st.add_node_to_structure item category).2 = false →
          expandItem st category cd md item = (st.add_node_to_structure item category).1 ∧
          (expandItem st category cd md item).pending_tasks = st.pending_tasks)) := by
  refine ⟨?_, ?_, ?_⟩
  · intro node_name hnm hdep
    cases hc : st.current_processing_task_id with
    | none =>
      refine ⟨?_, ?_, ?_, ?_⟩ <;>
        simp [neExecuteTask, hnm, hc, hdep, WorkflowState.update_node_details,
          Dict.find?_setItem_self]
    | some tid =>
      refine ⟨?_, ?_, ?_, ?_⟩ <;>
        simp [neExecuteTask, hnm, hc, hdep, WorkflowState.update_node_details,
          WorkflowState.complete_task, WorkflowState.increment_error_count,
          Dict.find?_setItem_self]
  · intro category cd md item hlong
    unfold expandItem
    by_cases hstrip : pyStrip item = ""
    · rw [if_pos hstrip]
    · rw [if_neg hstrip, if_pos hlong]
  · intro category cd md item hstrip hlong
    constructor
    · intro htrue
      have heq : st.add_node_to_structure item category =
          ((st.add_node_to_structure item category).1, true) := by
        rw [← htrue]
      constructor
      · unfold expandItem
        rw [if_neg hstrip, if_neg hlong, heq]
      · unfold expandItem
        rw [if_neg hstrip, if_neg hlong, heq]
        simp only [WorkflowState.add_task, List.mem_mergeSort]
        refine ⟨_, List.mem_append_right _ (List.mem_singleton_self _), rfl, rfl⟩
    · intro hfalse
      have heq : st.add_node_to_structure item category =
          ((st.add_node_to_structure item category).1, false) := by
        rw [← hfalse]
      constructor
      · unfold expandItem
        rw [if_neg hstrip, if_neg hlong, heq]
      · unfold expandItem
        rw [if_neg hstrip, if_neg hlong, heq]
        exact add_node_pending_tasks st item category

/-- C8, witness: a short input element proposed at depth 0 with bound 2
enqueues a child task at depth 1 with the same bound, and the cutoff rejects
a 21-character candidate. -/
theorem expansion_policy_witness :
    (pyStrip "Silicon" ≠ "" ∧ ¬ ("Silicon".length > 20) ∧
     ((WorkflowState.initial "t").add_node_to_structure "Silicon" "upstream").2 = true ∧
     (expandItem (WorkflowState.initial "t") "upstream" 0 2 "Silicon").pending_tasks.any
       (fun t => decide (t.type_ = TASK_TYPE_EXTRACT_NODE) &&
         decide (t.payload = { node_name := some "Silicon", category := some "upstream",
                               depth := some 1, max_depth := some 2 })) = true) ∧
    ("AAAAAAAAAAAAAAAAAAAAA".length > 20 ∧
     expandItem (WorkflowState.initial "t") "upstream" 0 2 "AAAAAAAAAAAAAAAAAAAAA" =
       WorkflowState.initial "t") := by
  have h := expansion_policy (WorkflowState.initial "t") {} ({} : Bundle)
  refine ⟨⟨by decide, by decide, by decide, ?_⟩, by decide, ?_⟩
  · obtain ⟨t, ht, h1, h2⟩ :=
      ((h.2.2 "upstream" 0 2 "Silicon" (by decide) (by decide)).1 (by decide)).2
    exact List.any_eq_true.mpr ⟨t, ht, by rw [decide_eq_true h1, decide_eq_true h2]; rfl⟩
  · exact h.2.1 "upstream" 0 2 "AAAAAAAAAAAAAAAAAAAAA" (by decide)

/-- C10. When the node-extraction handler's fallible front half raises, the
handler completes the task as failed and re-raises, and the orchestrator's
failure boundary completes it as failed again: the completion log gains two
entries carrying the task's id and the global error counter rises by two. -/
theorem failed_extraction_double_completion
    (agents : Dict AgentFn) (st : WorkflowState) (task : Task) (e nm : String)
    (hagent : agents.find? task.type_ = some (neExecuteTask (.raised e)))
    (hcur : st.current_processing_task_id = some task.id)
    (hnm : task.payload.node_name = some nm) :
    (executeTaskType agents st task).completed_tasks =
      st.completed_tasks ++
        [{ id := task.id, status := "failed",
           message := "node extraction failed: " ++ e },
         { id := task.id, status := "failed",
           message := "agent execution failed: " ++ ("node extraction failed: " ++ e) }] ∧
    ((executeTaskType agents st task).completed_tasks.filter
        (fun c => c.id = task.id)).length =
      (st.completed_tasks.filter (fun c => c.id = task.id)).length + 2 ∧
    (executeTaskType agents st task).error_count = st.error_count + 2 := by
  refine ⟨?_, ?_, ?_⟩ <;>
    simp [executeTaskType, hagent, neExecuteTask, hnm, hcur,
      WorkflowState.complete_task, WorkflowState.increment_error_count]

/-- C10, witness: a concrete raising extraction handler double-logs the task
and bumps the error counter by two. -/
theorem failed_extraction_double_completion_witness :
    (executeTaskType raisingAgents raisingState raisingTask).error_count =
      raisingState.error_count + 2 ∧
    ((executeTaskType raisingAgents raisingState raisingTask).completed_tasks.filter
        (fun c => c.id = raisingTask.id)).length = 2 := by
  have h := failed_extraction_double_completion raisingAgents raisingState raisingTask
    "boom" "N" (by simp [raisingAgents, raisingTask, Dict.find?]) (by rfl) (by rfl)
  refine ⟨h.2.2, ?_⟩
  rw [h.2.1]
  rfl

/-- Generic stall run: from an empty queue, an unfinished graph and a
cleared completion flag, the loop performs exactly the remaining
`STALL_PATIENCE_THRESHOLD - stall` empty polls and aborts as stalled with
the state untouched. -/
theorem coordinate_stall_run (agents : Dict AgentFn) (maxIter : Nat)
    (st : WorkflowState) (hp : st.pending_tasks = [])
    (hf : st.get_flag "extraction_complete" false = false)
    (ha : st.are_all_nodes_extracted = false) :
    ∀ (n ic stall : Nat), stall + n = STALL_PATIENCE_THRESHOLD → 0 < n →
      ic + n ≤ maxIter →
      coordinate_workflow agents maxIter ic stall st = (st, WorkflowExit.stalled, n) := by
  have h5 : STALL_PATIENCE_THRESHOLD = 5 := rfl
  have hnext : st.get_next_task = (none, st) := by
    unfold WorkflowState.get_next_task
    rw [hp]
  intro n
  induction n with
  | zero =>
    intro ic stall _ h0 _
    exact absurd h0 (by simp)
  | succ m ih =>
    intro ic stall hsum _ hle
    rw [coordinate_workflow.eq_def]
    rw [if_neg (by simp [hf])]
    rw [dif_neg (by omega)]
    rw [hnext]
    simp only
    rw [if_neg (by simp [ha])]
    by_cases hm : STALL_PATIENCE_THRESHOLD ≤ stall + 1
    · rw [if_pos hm]
      have hm0 : m = 0 := by omega
      rw [hm0]
    · rw [if_neg hm]
      rw [ih (ic + 1) (stall + 1) (by omega) (by omega) (by omega)]

/-- C7. The scheduler loop: (a) with a permanently empty queue, an
unresolved graph and the completion flag down, it aborts as stalled after
exactly `STALL_PATIENCE_THRESHOLD` (5) consecutive empty polls, returning
the state unchanged; (b) an empty poll that finds every node resolved
instead raises the completion flag and exits normally after that single
poll; (c) a dispatched task resets the consecutive-empty-poll counter to
zero for the continuation of the loop. -/
theorem scheduler_stall_complete_and_reset :
    (∀ (agents : Dict AgentFn) (maxIter : Nat) (st : WorkflowState),
       st.pending_tasks = [] → st.get_flag "extraction_complete" false = false →
       st.are_all_nodes_extracted = false → STALL_PATIENCE_THRESHOLD ≤ maxIter →
       coordinate_workflow agents maxIter 0 0 st =
         (st, WorkflowExit.stalled, STALL_PATIENCE_THRESHOLD)) ∧
    (∀ (agents : Dict AgentFn) (maxIter ic stall : Nat) (st : WorkflowState),
       st.pending_tasks = [] → st.get_flag "extraction_complete" false = false →
       st.are_all_nodes_extracted = true → ic < maxIter →
       coordinate_workflow agents maxIter ic stall st =
         (st.set_flag "extraction_complete" true, WorkflowExit.complete, 1)) ∧
    (∀ (agents : Dict AgentFn) (maxIter ic stall : Nat) (st : WorkflowState)
       (task : Task) (rest : List Task),
       st.pending_tasks = task :: rest →
       st.get_flag "extraction_complete" false = false → ic < maxIter →
       coordinate_workflow agents maxIter ic stall st =
         (let t : Task := { task with status := "in_progress" }
          let st' : WorkflowState :=
            { st with pending_tasks := rest, current_processing_task_id := some t.id }
          let r := coordinate_workflow agents maxIter (ic + 1) 0 (executeTaskType agents st' t)
          (r.1, r.2.1, r.2.2 + 1))) := by
  refine ⟨?_, ?_, ?_⟩
  · intro agents maxIter st hp hf ha hmax
    exact coordinate_stall_run agents maxIter st hp hf ha STALL_PATIENCE_THRESHOLD 0 0
      (by simp) (by decide) (by omega)
  · intro agents maxIter ic stall st hp hf ha hic
    have hnext : st.get_next_task = (none, st) := by
      unfold WorkflowState.get_next_task
      rw [hp]
    rw [coordinate_workflow.eq_def]
    rw [if_neg (by simp [hf])]
    rw [dif_neg (by omega)]
    rw [hnext]
    simp only
    rw [if_pos ha]
  · intro agents maxIter ic stall st task rest hp hf hic
    have hnext : st.get_next_task =
        (some { task with status := "in_progress" },
         { st with pending_tasks := rest, current_processing_task_id := some task.id }) := by
      unfold WorkflowState.get_next_task
      rw [hp]
    rw [coordinate_workflow.eq_def]
    rw [if_neg (by simp [hf])]
    rw [dif_neg (by omega)]
    rw [hnext]

/-- C7, witness: a concrete state with one planned, unresolved node and an
empty queue stalls after exactly five polls under the default iteration cap
of 100. -/
theorem scheduler_stall_complete_and_reset_witness :
    stalledState.pending_tasks = [] ∧
    stalledState.get_flag "extraction_complete" false = false ∧
    stalledState.are_all_nodes_extracted = false ∧
    coordinate_workflow [] 100 0 0 stalledState = (stalledState, WorkflowExit.stalled, 5) := by
  refine ⟨by decide, by decide, by decide, ?_⟩
  exact scheduler_stall_complete_and_reset.1 [] 100 stalledState (by decide) (by decide)
    (by decide) (by decide)

/-! ### Pruning lemmas -/

theorem pruneEraseCat_structure_find (node : String) (g : IndustryGraph)
    (category cat' : String) :
    (WorkflowState.pruneEraseCat node g category).structure_.find? cat' =
      if cat' = category then (g.structure_.find? cat').map (fun l => l.erase node)
      else g.structure_.find? cat' := by
  by_cases hc : cat' = category
  · subst hc
    unfold WorkflowState.pruneEraseCat
    cases hfind : g.structure_.find? cat' with
    | none => simp [hfind]
    | some l =>
      by_cases hcon : l.contains node
      · have hmem : node ∈ l := by simpa using hcon
        simp [hfind, hcon, hmem, Dict.find?_setItem_self]
      · have hnm : node ∉ l := by simpa using hcon
        simp [hfind, hcon, hnm, List.erase_of_not_mem hnm]
  · unfold WorkflowState.pruneEraseCat
    cases hfind : g.structure_.find? category with
    | none => simp [hfind, hc]
    | some l =>
      by_cases hcon : l.contains node
      · have hmem : node ∈ l := by simpa using hcon
        simp [hfind, hcon, hmem, hc, Dict.find?_setItem_ne _ _ hc]
      · have hnm : node ∉ l := by simpa using hcon
        simp [hfind, hcon, hnm, hc]

theorem pruneEraseCat_node_details (node : String) (g : IndustryGraph)
    (category : String) :
    (WorkflowState.pruneEraseCat node g category).node_details = g.node_details := by
  unfold WorkflowState.pruneEraseCat
  split
  · split <;> rfl
  · rfl

theorem foldl_pruneEraseCat_node_details (node : String) :
    ∀ (cats : List String) (g : IndustryGraph),
      (cats.foldl (WorkflowState.pruneEraseCat node) g).node_details = g.node_details := by
  intro cats
  induction cats with
  | nil => intro g; rfl
  | cons c cs ih =>
    intro g
    rw [List.foldl_cons, ih, pruneEraseCat_node_details]

theorem foldl_pruneEraseCat_find_not_mem (node : String) :
    ∀ (cats : List String) (g : IndustryGraph) (cat : String), cat ∉ cats →
      (cats.foldl (WorkflowState.pruneEraseCat node) g).structure_.find? cat =
        g.structure_.find? cat := by
  intro cats
  induction cats with
  | nil => intro g cat _; rfl
  | cons c cs ih =>
    intro g cat hcat
    rw [List.foldl_cons, ih _ cat (fun h => hcat (List.mem_cons_of_mem c h)),
      pruneEraseCat_structure_find]
    rw [if_neg (show ¬ cat = c from fun h => hcat (by rw [h]; exact List.mem_cons_self c cs))]

theorem foldl_pruneEraseCat_find_mem (node : String) :
    ∀ (cats : List String) (g : IndustryGraph) (cat : String), cats.Nodup →
      cat ∈ cats →
      (cats.foldl (WorkflowState.pruneEraseCat node) g).structure_.find? cat =
        (g.structure_.find? cat).map (fun l => l.erase node) := by
  intro cats
  induction cats with
  | nil => intro g cat _ h; simp at h
  | cons c cs ih =>
    intro g cat hnd hcat
    rw [List.foldl_cons]
    rcases List.mem_cons.mp hcat with h1 | h1
    · subst h1
      rw [foldl_pruneEraseCat_find_not_mem node cs _ cat (List.nodup_cons.mp hnd).1,
        pruneEraseCat_structure_find, if_pos rfl]
    · rw [ih _ cat (List.nodup_cons.mp hnd).2 h1, pruneEraseCat_structure_find]
      rw [if_neg (show ¬ cat = c from fun h => (List.nodup_cons.mp hnd).1 (by rw [← h]; exact h1))]

theorem pruneRemoveNode_structure_find (g : IndustryGraph) (node cat : String)
    (hcat : cat ∈ categoryKeys) :
    (WorkflowState.pruneRemoveNode g node).structure_.find? cat =
      (g.structure_.find? cat).map (fun l => l.erase node) := by
  unfold WorkflowState.pruneRemoveNode
  rw [foldl_pruneEraseCat_find_mem node categoryKeys _ cat (by decide) hcat]
  have hs : (if g.node_details.hasKey node then
      { g with node_details := g.node_details.delItem node } else g).structure_ =
      g.structure_ := by
    split <;> rfl
  rw [hs]

theorem pruneRemoveNode_details_find (g : IndustryGraph) (node name : String)
    (hkeys : g.node_details.keys.Nodup) :
    (WorkflowState.pruneRemoveNode g node).node_details.find? name =
      if name = node then none else g.node_details.find? name := by
  unfold WorkflowState.pruneRemoveNode
  rw [foldl_pruneEraseCat_node_details]
  by_cases hname : name = node
  · subst hname
    rw [if_pos rfl]
    by_cases hk : g.node_details.hasKey name
    · rw [if_pos hk]
      exact Dict.find?_delItem_self _ _ hkeys
    · rw [if_neg hk]
      cases hfind : g.node_details.find? name with
      | none => rfl
      | some v => rw [Dict.hasKey, hfind] at hk; simp at hk
  · rw [if_neg hname]
    split
    · exact Dict.find?_delItem_ne _ hname
    · rfl

theorem pruneRemoveNode_keys_nodup (g : IndustryGraph) (node : String)
    (h : g.node_details.keys.Nodup) :
    (WorkflowState.pruneRemoveNode g node).node_details.keys.Nodup := by
  unfold WorkflowState.pruneRemoveNode
  rw [foldl_pruneEraseCat_node_details]
  split
  · exact Dict.keys_nodup_delItem _ _ h
  · exact h

theorem foldl_pruneRemoveNode_details_find (R : List String) :
    ∀ (g : IndustryGraph), g.node_details.keys.Nodup → ∀ name : String,
      (R.foldl WorkflowState.pruneRemoveNode g).node_details.find? name =
        if name ∈ R then none else g.node_details.find? name := by
  induction R with
  | nil => intro g _ name; simp
  | cons r R' ih =>
    intro g hkeys name
    rw [List.foldl_cons, ih _ (pruneRemoveNode_keys_nodup g r hkeys) name]
    by_cases hmem : name ∈ R'
    · simp [hmem]
    · rw [if_neg hmem, pruneRemoveNode_details_find g r name hkeys]
      by_cases hr : name = r
      · simp [hr]
      · simp [hr, hmem]

theorem foldl_pruneRemoveNode_structure_find (R : List String) :
    ∀ (g : IndustryGraph) (cat : String), cat ∈ categoryKeys →
      (R.foldl WorkflowState.pruneRemoveNode g).structure_.find? cat =
        (g.structure_.find? cat).map
          (fun l => R.foldl (fun l n => l.erase n) l) := by
  induction R with
  | nil =>
    intro g cat _
    cases h : g.structure_.find? cat <;> simp [h]
  | cons r R' ih =>
    intro g cat hcat
    rw [List.foldl_cons, ih _ cat hcat, pruneRemoveNode_structure_find g r cat hcat]
    cases g.structure_.find? cat <;> simp

theorem not_mem_foldl_erase_of_not_mem {a : String} :
    ∀ (R l : List String), a ∉ l → a ∉ R.foldl (fun l n => l.erase n) l := by
  intro R
  induction R with
  | nil => intro l h; simpa using h
  | cons r R' ih =>
    intro l h
    rw [List.foldl_cons]
    exact ih _ (fun hmem => h (List.erase_subset _ _ hmem))

theorem not_mem_foldl_erase {a : String} :
    ∀ (R l : List String), l.Nodup → a ∈ R → a ∉ R.foldl (fun l n => l.erase n) l := by
  intro R
  induction R with
  | nil => intro l _ h; simp at h
  | cons r R' ih =>
    intro l hnd hmem
    rw [List.foldl_cons]
    by_cases hr : r = a
    · subst hr
      exact not_mem_foldl_erase_of_not_mem R' _ hnd.not_mem_erase
    · rcases List.mem_cons.mp hmem with h1 | h1
      · exact absurd h1.symm hr
      · exact ih _ (hnd.erase r) h1

open WorkflowState in
/-- C4. `prune_industry_graph` removes exactly the nodes whose details
entry fails the structural-content gate — null, non-dict, or all four list
fields empty (a description never saves a node: the characterisation below
does not mention it) — and each removed node disappears both from
`node_details` and from every category list, while every other node keeps
its details entry unchanged. -/
theorem prune_removes_exactly_contentless_nodes (st : WorkflowState)
    (hkeys : st.industry_graph.node_details.keys.Nodup)
    (hnd : ∀ cat ∈ categoryKeys, (st.industry_graph.structure_.getD cat []).Nodup) :
    (∀ (name : String) (v : NodeVal),
       st.industry_graph.node_details.find? name = some v →
       (pruneCond v = true →
          st.prune_industry_graph.industry_graph.node_details.find? name = none ∧
          ∀ cat ∈ categoryKeys,
            name ∉ st.prune_industry_graph.industry_graph.structure_.getD cat []) ∧
       (pruneCond v = false →
          st.prune_industry_graph.industry_graph.node_details.find? name = some v)) ∧
    pruneCond NodeVal.vNull = true ∧
    (∀ t, pruneCond (NodeVal.vOther t) = true) ∧
    (∀ b, pruneCond (NodeVal.vDict b) =
       (optListFalsy b.input_elements && optListFalsy b.output_products &&
        optListFalsy b.key_technologies && optListFalsy b.representative_companies)) := by
  refine ⟨?_, rfl, ?_, ?_⟩
  · intro name v hfind
    have hR : ∀ w : Bool, pruneCond v = w →
        ((name ∈ (st.industry_graph.node_details.filter
          (fun p => pruneCond p.2)).map Prod.fst) ↔ w = true) := by
      intro w hw
      constructor
      · intro hmem
        rcases List.mem_map.mp hmem with ⟨p, hp, hp1⟩
        rcases List.mem_filter.mp hp with ⟨hpd, hpc⟩
        have hfind2 : st.industry_graph.node_details.find? p.1 = some p.2 :=
          Dict.find?_eq_some_of_mem_nodup hkeys (by rw [Prod.mk.eta]; exact hpd)
        rw [hp1, hfind] at hfind2
        have hv : v = p.2 := Option.some.inj hfind2
        rw [← hw, hv]
        exact hpc
      · intro hwt
        refine List.mem_map.mpr ⟨(name, v), List.mem_filter.mpr ⟨?_, ?_⟩, rfl⟩
        · exact Dict.mem_of_find?_eq_some hfind
        · show pruneCond v = true
          rw [hw]
          exact hwt
    constructor
    · intro hcond
      have hmem : name ∈ (st.industry_graph.node_details.filter
          (fun p => pruneCond p.2)).map Prod.fst := (hR true hcond).mpr rfl
      refine ⟨?_, ?_⟩
      · unfold WorkflowState.prune_industry_graph
        rw [foldl_pruneRemoveNode_details_find _ _ hkeys, if_pos hmem]
      · intro cat hcat
        unfold WorkflowState.prune_industry_graph
        simp only [Dict.getD]
        rw [foldl_pruneRemoveNode_structure_find _ _ cat hcat]
        cases hstr : st.industry_graph.structure_.find? cat with
        | none => simp
        | some l =>
          have hlnd : l.Nodup := by
            have := hnd cat hcat
            rw [Dict.getD, hstr] at this
            exact this
          simpa using not_mem_foldl_erase _ l hlnd hmem
    · intro hcond
      have hmem : ¬ (name ∈ (st.industry_graph.node_details.filter
          (fun p => pruneCond p.2)).map Prod.fst) := by
        intro hmem
        exact absurd ((hR false hcond).mp hmem) (by simp)
      unfold WorkflowState.prune_industry_graph
      rw [foldl_pruneRemoveNode_details_find _ _ hkeys, if_neg hmem]
      exact hfind
  · intro t
    cases t <;> rfl
  · intro b
    unfold pruneCond NodeVal.falsy
    by_cases hb : b.isEmptyDict
    · simp only [Bundle.isEmptyDict, Bool.and_eq_true, Option.isNone_iff_eq_none,
        List.isEmpty_iff] at hb
      simp [hb, hb.1.1.1.1.1.2, hb.1.1.1.1.2, hb.1.1.1.2, hb.1.1.2, optListFalsy]
    · simp only [hb, Bool.false_eq_true, if_false]

open WorkflowState in
/-- C4, witness: a node whose bundle has a non-empty description but all
four list fields empty is removed from details and from its category list,
while a node with one input element survives. -/
theorem prune_removes_exactly_contentless_nodes_witness :
    pruneWitnessState.industry_graph.node_details.keys.Nodup ∧
    pruneCond (.vDict descOnlyBundle) = true ∧
    pruneWitnessState.prune_industry_graph.industry_graph.node_details.find? "NodeA" = none ∧
    "NodeA" ∉ pruneWitnessState.prune_industry_graph.industry_graph.structure_.getD "upstream" [] ∧
    pruneWitnessState.prune_industry_graph.industry_graph.node_details.find? "NodeB" =
      some (.vDict keeperBundle) := by
  have h := prune_removes_exactly_contentless_nodes pruneWitnessState (by decide) (by decide)
  refine ⟨by decide, by decide, ?_, ?_, ?_⟩
  · exact ((h.1 "NodeA" (.vDict descOnlyBundle) (by decide)).1 (by decide)).1
  · exact ((h.1 "NodeA" (.vDict descOnlyBundle) (by decide)).1 (by decide)).2 "upstream" (by decide)
  · exact (h.1 "NodeB" (.vDict keeperBundle) (by decide)).2 (by decide)

/-! ### Category disjointness preservation (supporting development)

`initialize_industry_graph` fails to establish invariant I1 (see
`disjointness_violated_after_initialize`), but the mutation primitives that
the spec also names at that invariant's checkpoints do preserve it: these
theorems cover `merge_nodes` and the consolidator's structure rebuild. -/

theorem disjoint_of_pointwise_subset (s s' : Dict (List String))
    (hsub : ∀ cat ∈ categoryKeys, ∀ n : String, n ∈ s'.getD cat [] → n ∈ s.getD cat [])
    (h : categoriesDisjoint s) : categoriesDisjoint s' := by
  intro c1 h1 c2 h2 hne n hn hn2
  exact h c1 h1 c2 h2 hne n (hsub c1 h1 n hn) (hsub c2 h2 n hn2)

/-- The graph component of `removeCatStep` is exactly `pruneEraseCat`. -/
theorem removeCatStep_graph (node : String) (acc : IndustryGraph × Bool)
    (category : String) :
    (WorkflowState.removeCatStep node acc category).1 =
      WorkflowState.pruneEraseCat node acc.1 category := by
  obtain ⟨g, removed⟩ := acc
  unfold WorkflowState.removeCatStep WorkflowState.pruneEraseCat
  cases hf : g.structure_.find? category with
  | none => simp [hf]
  | some l =>
    by_cases h : node ∈ l
    · simp [hf, h]
    · simp [hf, h]

theorem foldl_removeCatStep_graph (node : String) :
    ∀ (cats : List String) (acc : IndustryGraph × Bool),
      (cats.foldl (WorkflowState.removeCatStep node) acc).1 =
        cats.foldl (WorkflowState.pruneEraseCat node) acc.1 := by
  intro cats
  induction cats with
  | nil => intro acc; rfl
  | cons c cs ih =>
    intro acc
    rw [List.foldl_cons, List.foldl_cons, ih, removeCatStep_graph]

/-- `remove_node` turns each category list into itself with the first
occurrence of the name erased. -/
theorem remove_node_structure_find (st : WorkflowState) (node cat : String)
    (hcat : cat ∈ categoryKeys) :
    (st.remove_node node).1.industry_graph.structure_.find? cat =
      (st.industry_graph.structure_.find? cat).map (fun l => l.erase node) := by
  rcases hfold : categoryKeys.foldl (WorkflowState.removeCatStep node)
      (st.industry_graph, false) with ⟨g, removed⟩
  have hg : g.structure_.find? cat =
      (st.industry_graph.structure_.find? cat).map (fun l => l.erase node) := by
    have h1 := foldl_removeCatStep_graph node categoryKeys (st.industry_graph, false)
    rw [hfold] at h1
    calc g.structure_.find? cat
        = (categoryKeys.foldl (WorkflowState.pruneEraseCat node)
            st.industry_graph).structure_.find? cat := by rw [← h1]
      _ = _ := foldl_pruneEraseCat_find_mem node categoryKeys _ cat (by decide) hcat
  simp only [WorkflowState.remove_node, hfold]
  split <;> exact hg

theorem remove_node_preserves_disjoint (st : WorkflowState) (node : String)
    (h : categoriesDisjoint st.industry_graph.structure_) :
    categoriesDisjoint (st.remove_node node).1.industry_graph.structure_ := by
  refine disjoint_of_pointwise_subset _ _ ?_ h
  intro cat hcat n hn
  rw [Dict.getD, remove_node_structure_find st node cat hcat] at hn
  cases hf : st.industry_graph.structure_.find? cat with
  | none => rw [hf] at hn; simp at hn
  | some l =>
    rw [hf] at hn
    rw [Dict.getD, hf, Option.getD_some]
    exact List.mem_of_mem_erase (by simpa using hn)

/-- A name that the all-category membership check reports as absent is in no
category list. -/
theorem add_node_absent_not_anywhere (st : WorkflowState) (name : String)
    (habsent : st.industry_graph.structure_.any (fun p => p.2.contains name) = false)
    (key : String) : name ∉ st.industry_graph.structure_.getD key [] := by
  intro hmem
  cases hf : st.industry_graph.structure_.find? key with
  | none => rw [Dict.getD, hf] at hmem; simp at hmem
  | some l =>
    rw [Dict.getD, hf, Option.getD_some] at hmem
    have hp := Dict.mem_of_find?_eq_some hf
    have h2 := List.any_eq_false.mp habsent (key, l) hp
    simp only at h2
    exact h2 (by simpa using hmem)

theorem add_node_preserves_disjoint (st : WorkflowState) (name category : String)
    (hcat : category ∈ categoryKeys)
    (h : categoriesDisjoint st.industry_graph.structure_) :
    categoriesDisjoint (st.add_node_to_structure name category).1.industry_graph.structure_ := by
  by_cases hpresent : st.industry_graph.structure_.any (fun p => p.2.contains name) = true
  · rw [add_node_eq_of_present st name category hcat hpresent]
    exact h
  · have habs : st.industry_graph.structure_.any (fun p => p.2.contains name) = false := by
      cases hv : st.industry_graph.structure_.any (fun p => p.2.contains name)
      · rfl
      · exact absurd hv hpresent
    have hself := (add_node_of_absent st name category hcat habs).2.1
    intro c1 h1 c2 h2 hne n hn hn2
    by_cases hc1 : c1 = category
    · subst hc1
      rw [hself] at hn
      have hc2 : c2 ≠ c1 := fun hh => hne hh.symm
      rw [add_node_getD_other st name c1 c2 hcat hc2] at hn2
      rcases List.mem_append.mp hn with hn' | hn'
      · exact h c1 h1 c2 h2 hne n hn' hn2
      · have : n = name := by simpa using hn'
        subst this
        exact add_node_absent_not_anywhere st n habs c2 hn2
    · rw [add_node_getD_other st name category c1 hcat hc1] at hn
      by_cases hc2 : c2 = category
      · subst hc2
        rw [hself] at hn2
        rcases List.mem_append.mp hn2 with hn' | hn'
        · exact h c1 h1 c2 h2 hne n hn hn'
        · have : n = name := by simpa using hn'
          subst this
          exact add_node_absent_not_anywhere st n habs c1 hn
      · rw [add_node_getD_other st name category c2 hcat hc2] at hn2
        exact h c1 h1 c2 h2 hne n hn hn2

/-- `update_node_details` never touches the structure dict. -/
theorem update_node_details_structure (st : WorkflowState) (name : String)
    (v : NodeVal) :
    (st.update_node_details name v).industry_graph.structure_ =
      st.industry_graph.structure_ := rfl

/-- The category `merge_nodes` picks for a missing keep node is always one
of the three fixed categories. -/
theorem merge_found_cat_mem (st : WorkflowState) (drop_name : String) :
    ((categoryKeys.find? (fun cat =>
        (st.industry_graph.structure_.getD cat []).contains drop_name)).getD "upstream")
      ∈ categoryKeys := by
  cases hf : categoryKeys.find? (fun cat =>
      (st.industry_graph.structure_.getD cat []).contains drop_name) with
  | none => simp [categoryKeys]
  | some c =>
    rw [Option.getD_some]
    exact List.mem_of_find?_eq_some hf

/-- `merge_nodes` with a drop name that has no details entry is a no-op
returning `false` (spec: "returns false and leaves the graph byte-for-byte
unchanged"). -/
theorem merge_nodes_missing_drop (st : WorkflowState) (keep_name drop_name : String)
    (h : st.industry_graph.node_details.hasKey drop_name = false) :
    st.merge_nodes keep_name drop_name = (st, false) := by
  unfold WorkflowState.merge_nodes
  rw [if_pos (by simp [h])]

/-- `merge_nodes` preserves the pairwise disjointness of the three category
lists (invariant I1 at the `mergeNodes` checkpoint). -/
theorem merge_nodes_preserves_disjoint (st : WorkflowState) (keep_name drop_name : String)
    (h : categoriesDisjoint st.industry_graph.structure_) :
    categoriesDisjoint (st.merge_nodes keep_name drop_name).1.industry_graph.structure_ := by
  unfold WorkflowState.merge_nodes
  split
  · exact h
  · refine remove_node_preserves_disjoint _ drop_name ?_
    by_cases hkeep : (!st.industry_graph.node_details.hasKey keep_name) = true
    · simp only [if_pos hkeep]
      have hst1 : categoriesDisjoint
          ((st.add_node_to_structure keep_name
            ((categoryKeys.find? (fun cat =>
              (st.industry_graph.structure_.getD cat []).contains drop_name)).getD
                "upstream")).1).industry_graph.structure_ :=
        add_node_preserves_disjoint st keep_name _ (merge_found_cat_mem st drop_name) h
      split
      · exact hst1
      · split
        · split <;> exact hst1
        · exact hst1
    · simp only [if_neg hkeep]
      split
      · exact h
      · split
        · split <;> exact h
        · exact h

/-- Membership in a rebuilt category list of `_apply_merges`: either an
original member that is neither a source nor the target, or the target
appended to its resolved category. -/
theorem rebuildCategoryList_mem {target : String} {sources : List String}
    {target_category cat : String} {l : List String} {n : String}
    (hn : n ∈ rebuildCategoryList target sources target_category cat l) :
    (n ∈ l ∧ sources.contains n = false ∧ n ≠ target) ∨
    (n = target ∧ cat = target_category) := by
  unfold rebuildCategoryList at hn
  by_cases hc : cat = target_category
  · rw [if_pos hc] at hn
    split at hn
    · rcases List.mem_filter.mp hn with ⟨hl, hp⟩
      simp only [Bool.and_eq_true, Bool.not_eq_true', decide_eq_false_iff_not] at hp
      exact Or.inl ⟨hl, hp.1, hp.2⟩
    · rcases List.mem_append.mp hn with hn' | hn'
      · rcases List.mem_filter.mp hn' with ⟨hl, hp⟩
        simp only [Bool.and_eq_true, Bool.not_eq_true', decide_eq_false_iff_not] at hp
        exact Or.inl ⟨hl, hp.1, hp.2⟩
      · exact Or.inr ⟨by simpa using hn', hc⟩
  · rw [if_neg hc] at hn
    rcases List.mem_filter.mp hn with ⟨hl, hp⟩
    simp only [Bool.and_eq_true, Bool.not_eq_true', decide_eq_false_iff_not] at hp
    exact Or.inl ⟨hl, hp.1, hp.2⟩

theorem foldl_rebuild_find_not_mem (target : String) (sources : List String)
    (target_category : String) :
    ∀ (cats : List String) (su : Dict (List String)) (cat' : String), cat' ∉ cats →
      ((cats.foldl (fun su cat =>
          su.setItem cat (rebuildCategoryList target sources target_category cat
            (su.getD cat []))) su).find? cat') = su.find? cat' := by
  intro cats
  induction cats with
  | nil => intro su cat' _; rfl
  | cons c cs ih =>
    intro su cat' hm
    rw [List.foldl_cons, ih _ cat' (fun hh => hm (List.mem_cons_of_mem c hh)),
      Dict.find?_setItem_ne _ _ (fun hh => hm (by rw [hh]; exact List.mem_cons_self c cs))]

theorem foldl_rebuild_find_mem (target : String) (sources : List String)
    (target_category : String) :
    ∀ (cats : List String) (su : Dict (List String)) (cat' : String), cats.Nodup →
      cat' ∈ cats →
      ((cats.foldl (fun su cat =>
          su.setItem cat (rebuildCategoryList target sources target_category cat
            (su.getD cat []))) su).find? cat') =
        some (rebuildCategoryList target sources target_category cat' (su.getD cat' [])) := by
  intro cats
  induction cats with
  | nil => intro su cat' _ hm; simp at hm
  | cons c cs ih =>
    intro su cat' hnd hm
    rw [List.foldl_cons]
    rcases List.mem_cons.mp hm with h1 | h1
    · subst h1
      rw [foldl_rebuild_find_not_mem target sources target_category cs _ cat'
        (List.nodup_cons.mp hnd).1]
      exact Dict.find?_setItem_self _ _ _
    · rw [ih _ cat' (List.nodup_cons.mp hnd).2 h1]
      have hne : cat' ≠ c := fun hh => (List.nodup_cons.mp hnd).1 (hh ▸ h1)
      rw [Dict.getD, Dict.find?_setItem_ne _ _ hne, ← Dict.getD]

/-- The per-suggestion structure rebuild of `_apply_merges` preserves the
pairwise disjointness of the three category lists, for any resolved target
category (this is the two-phase "remove everywhere, add once" property). -/
theorem applyMergeRebuild_preserves_disjoint (target : String) (sources : List String)
    (target_category : String) (su : Dict (List String))
    (h : categoriesDisjoint su) :
    categoriesDisjoint (applyMergeRebuild target sources target_category su) := by
  have hgetD : ∀ cat ∈ categoryKeys,
      (applyMergeRebuild target sources target_category su).getD cat [] =
        rebuildCategoryList target sources target_category cat (su.getD cat []) := by
    intro cat hcat
    rw [Dict.getD, applyMergeRebuild,
      foldl_rebuild_find_mem target sources target_category categoryKeys su cat
        (by decide) hcat, Option.getD_some]
  intro c1 h1 c2 h2 hne n hn hn2
  rw [hgetD c1 h1] at hn
  rw [hgetD c2 h2] at hn2
  rcases rebuildCategoryList_mem hn with ⟨hl1, _, hnt1⟩ | ⟨heq1, htc1⟩
  · rcases rebuildCategoryList_mem hn2 with ⟨hl2, _, _⟩ | ⟨heq2, _⟩
    · exact h c1 h1 c2 h2 hne n hl1 hl2
    · exact hnt1 heq2
  · rcases rebuildCategoryList_mem hn2 with ⟨_, _, hnt2⟩ | ⟨_, htc2⟩
    · exact hnt2 heq1
    · exact hne (htc1.trans htc2.symm)

/-- The whole merge pass of the consolidator preserves the pairwise
disjointness of the three category lists (invariant I1 at the consolidator
checkpoint). -/
theorem applyMergesStep_preserves_disjoint (su : Dict (List String))
    (s : MergeSuggestion) (h : categoriesDisjoint su) :
    categoriesDisjoint (applyMergesStep su s) := by
  unfold applyMergesStep
  cases s.target_node with
  | none => exact h
  | some target =>
    by_cases hs : (s.source_nodes.filter (fun x => !(x = target))).isEmpty = true
    · simp only [if_pos hs]
      exact h
    · simp only [if_neg hs]
      exact applyMergeRebuild_preserves_disjoint _ _ _ su h

/-- The whole merge pass of the consolidator preserves the pairwise
disjointness of the three category lists (invariant I1 at the consolidator
checkpoint). -/
theorem applyMergesStructure_preserves_disjoint (suggestions : List MergeSuggestion) :
    ∀ (su : Dict (List String)), categoriesDisjoint su →
      categoriesDisjoint (applyMergesStructure su suggestions) := by
  induction suggestions with
  | nil => intro su h; exact h
  | cons s ss ih =>
    intro su h
    unfold applyMergesStructure
    rw [List.foldl_cons]
    exact ih _ (applyMergesStep_preserves_disjoint su s h)

end ESAGE
